import Mathlib

set_option maxHeartbeats 1000000

/-!
Shallow embedding of the page buffer cache: the LRU-K replacer
(`src/buffer/lru_k_replacer.cpp`) and the buffer pool manager
(`src/buffer/buffer_pool_manager_instance.cpp`).

Frame ids and page ids are C++ `int32_t`; they are modelled as `Int`
(the integers appearing in any run are tiny, so width is irrelevant, and
the sentinel `-1` is kept).  `size_t` counters and timestamps are
modelled as `Nat`, with `std::numeric_limits<size_t>::max()` as the
explicit constant `SIZE_MAX`.  `std::unordered_map` is modelled as an
association list; its iteration order is unspecified in C++, so the list
order stands for one admissible order.  `BUSTUB_ASSERT` failures abort
the process; operations that can assert return `Option`, with `none`
for an assertion failure.
-/

/-- `std::numeric_limits<size_t>::max()`. -/
def SIZE_MAX : Nat := 2 ^ 64 - 1

def INVALID_FRAME_ID : Int := -1

def INVALID_PAGE_ID : Int := -1

/-- Per-frame record of the replacer: the up-to-`k` most recent access
timestamps (oldest first, as in the C++ `std::list` that is `push_back`ed
and `pop_front`ed) and the evictable flag. -/
structure FrameInfo where
  timestamp : List Nat
  evictable : Bool
deriving DecidableEq

/-- Modelled from the spec: the replacer header is not under `src/`, so the
value of a default-constructed `FrameInfo` (made by `frame_table_[id]` on a
missing key) is taken from C++ value-initialisation of its members and the
spec sentence "A newly tracked frame defaults to non-evictable": an empty
history and a false flag. -/
def defaultFrameInfo : FrameInfo := ⟨[], false⟩

/-- Association-list lookup, modelling `std::unordered_map::find`. -/
def alookup {α : Type} : List (Int × α) → Int → Option α
  | [], _ => none
  | e :: t, k => if e.1 = k then some e.2 else alookup t k

/-- Replace the binding of `k` in place, appending when absent: the update
done through `std::unordered_map::operator[]`. -/
def aupsert {α : Type} : List (Int × α) → Int → α → List (Int × α)
  | [], k, v => [(k, v)]
  | e :: t, k, v => if e.1 = k then (k, v) :: t else e :: aupsert t k v

/-- Insert only when the key is absent: `std::unordered_map::emplace`. -/
def aemplace {α : Type} (l : List (Int × α)) (k : Int) (v : α) : List (Int × α) :=
  if (alookup l k).isSome then l else l ++ [(k, v)]

/-- Drop the binding of `k`: `std::unordered_map::erase`. -/
def aerase {α : Type} : List (Int × α) → Int → List (Int × α)
  | [], _ => []
  | e :: t, k => if e.1 = k then t else e :: aerase t k

/-- Replacer state: `frame_table_`, `replacer_size_`, `k_`,
`current_timestamp_` and `curr_size_` of `LRUKReplacer`. -/
structure LRUKReplacer where
  frame_table : List (Int × FrameInfo)
  replacer_size : Nat
  k : Nat
  current_timestamp : Nat
  curr_size : Nat
deriving DecidableEq

/-- `LRUKReplacer::LRUKReplacer(num_frames, k)`: empty table, zero
timestamp, `curr_size_ = 0`. -/
def mkLRUKReplacer (num_frames k : Nat) : LRUKReplacer :=
  ⟨[], num_frames, k, 0, 0⟩

/-- `info.timestamp.front()`: the oldest retained timestamp. -/
def front (i : FrameInfo) : Nat := i.timestamp.headI

/-- The quantity `d` computed for one frame inside `LRUKReplacer::Evict`:
`current_timestamp_ - *std::next(info.timestamp.rbegin(), k_ - 1)` when the
history holds at least `k` entries, and `SIZE_MAX` otherwise. -/
def codeD (k cur : Nat) (i : FrameInfo) : Nat :=
  if k ≤ i.timestamp.length then cur - i.timestamp.reverse.getD (k - 1) 0
  else SIZE_MAX

/-- The loop locals `max_d`, `t`, `s` of `LRUKReplacer::Evict`. -/
structure ScanAcc where
  max_d : Nat
  t : Nat
  s : Int
deriving DecidableEq

/-- One iteration of the victim-selection loop of `LRUKReplacer::Evict`:
skip non-evictable frames; take the frame when
`((info.timestamp.front() < t) && d == max_d) || d > max_d`. -/
def scanStep (k cur : Nat) (acc : ScanAcc) (e : Int × FrameInfo) : ScanAcc :=
  if e.2.evictable = true then
    let d := codeD k cur e.2
    if (front e.2 < acc.t ∧ d = acc.max_d) ∨ acc.max_d < d then ⟨d, front e.2, e.1⟩
    else acc
  else acc

/-- `LRUKReplacer::Evict`: scan the frame table; if no frame was selected
(`s == INVALID_FRAME_ID`) return failure, otherwise decrement `curr_size_`,
erase the victim's record and return its id. -/
def LRUKReplacer.Evict (r : LRUKReplacer) : Option (Int × LRUKReplacer) :=
  let res := r.frame_table.foldl (scanStep r.k r.current_timestamp) ⟨0, SIZE_MAX, INVALID_FRAME_ID⟩
  if res.s = INVALID_FRAME_ID then none
  else some (res.s, { r with curr_size := r.curr_size - 1,
                             frame_table := aerase r.frame_table res.s })

/-- `LRUKReplacer::RecordAccess`: `frame_table_[frame_id]` (creating the
record when absent), `push_back(current_timestamp_++)`, then `pop_front`
when the history exceeds `k_`. -/
def LRUKReplacer.RecordAccess (r : LRUKReplacer) (fid : Int) : LRUKReplacer :=
  let i := (alookup r.frame_table fid).getD defaultFrameInfo
  let ts1 := i.timestamp ++ [r.current_timestamp]
  let ts2 := if r.k < ts1.length then ts1.tail else ts1
  { r with frame_table := aupsert r.frame_table fid { i with timestamp := ts2 },
           current_timestamp := r.current_timestamp + 1 }

/-- `LRUKReplacer::SetEvictable`: `frame_table_[frame_id]` (creating the
record when absent); on a flag transition update the flag and adjust
`curr_size_`. -/
def LRUKReplacer.SetEvictable (r : LRUKReplacer) (fid : Int) (b : Bool) : LRUKReplacer :=
  let i := (alookup r.frame_table fid).getD defaultFrameInfo
  if i.evictable ≠ b then
    { r with frame_table := aupsert r.frame_table fid { i with evictable := b },
             curr_size := if b then r.curr_size + 1 else r.curr_size - 1 }
  else
    { r with frame_table := aupsert r.frame_table fid i }

/-- `LRUKReplacer::Remove`: assert `frame_id < replacer_size_`; when the
frame is tracked, decrement `curr_size_`, assert it is evictable and erase
its record; otherwise do nothing.  `none` models an assertion failure. -/
def LRUKReplacer.Remove (r : LRUKReplacer) (fid : Int) : Option LRUKReplacer :=
  if (r.replacer_size : Int) ≤ fid then none
  else
    match alookup r.frame_table fid with
    | none => some r
    | some i =>
      if i.evictable = true then
        some { r with curr_size := r.curr_size - 1,
                      frame_table := aerase r.frame_table fid }
      else none

/-- `LRUKReplacer::Size`: returns `curr_size_`. -/
def LRUKReplacer.Size (r : LRUKReplacer) : Nat := r.curr_size

/-! ## Buffer pool manager -/

/-- Frame metadata of the `Page` class.  Modelled from the spec: `page.h`
is not under `src/`, so the fields are the spec's frame object (`page_id`,
`pin_count`, `dirty`, `data`); the byte buffer is abstracted to one number
(`0` = zeroed, as left by `ResetMemory`).  A fresh frame has
`page_id = sentinel`, `pin_count = 0`, `dirty = false`, zeroed data, per
the spec's free-frame invariant. -/
structure Page where
  page_id : Int
  pin_count : Int
  is_dirty : Bool
  data : Nat
deriving DecidableEq

def defaultPage : Page := ⟨INVALID_PAGE_ID, 0, false, 0⟩

/-- Read of `pages_[n]` (the frame array). -/
def pageGet : List Page → Nat → Page
  | [], _ => defaultPage
  | p :: _, 0 => p
  | _ :: t, n + 1 => pageGet t n

/-- Write of `pages_[n]`. -/
def pageSet : List Page → Nat → Page → List Page
  | [], _, _ => []
  | _ :: t, 0, p => p :: t
  | x :: t, n + 1, p => x :: pageSet t n p

/-- The external disk collaborator, observed through its call history:
the current on-disk contents, the trace of `WritePage` calls (most recent
first) and the trace of `DeallocatePage` notifications. -/
structure Disk where
  contents : List (Int × Nat)
  writes : List (Int × Nat)
  deallocated : List Int
deriving DecidableEq

/-- `disk_manager_->WritePage(pid, data)`. -/
def Disk.writePage (d : Disk) (pid : Int) (v : Nat) : Disk :=
  { d with contents := aupsert d.contents pid v, writes := (pid, v) :: d.writes }

/-- `disk_manager_->ReadPage(pid, buffer)`: the on-disk contents of `pid`. -/
def Disk.readPage (d : Disk) (pid : Int) : Nat := (alookup d.contents pid).getD 0

def emptyDisk : Disk := ⟨[], [], []⟩

/-- State of a `BufferPoolManagerInstance`: frame array, page table, free
list, replacer, page-id allocator and the disk collaborator. -/
structure BPMState where
  pool_size : Nat
  pages : List Page
  page_table : List (Int × Int)
  free_list : List Int
  replacer : LRUKReplacer
  next_page_id : Int
  disk : Disk
deriving DecidableEq

/-- `pages_[frame_id]` addressed by a (nonnegative) frame id. -/
def pageAt (s : BPMState) (fid : Int) : Page := pageGet s.pages fid.toNat

/-- `BufferPoolManagerInstance::BufferPoolManagerInstance`: allocate
`pool_size` frames, an empty page table, the replacer, and put every frame
on the free list.  `next_page_id_` starts at `0` (its initialiser lives in
the header, which is not under `src/`; the spec's allocator is a monotonic
counter and its start value is irrelevant to every claim).  The constructor
body contains no `BUSTUB_ASSERT`. -/
def mkBufferPool (pool_size replacer_k : Nat) : BPMState :=
  { pool_size := pool_size,
    pages := List.replicate pool_size defaultPage,
    page_table := [],
    free_list := (List.range pool_size).map Int.ofNat,
    replacer := mkLRUKReplacer pool_size replacer_k,
    next_page_id := 0,
    disk := emptyDisk }

/-- The constructor as an assertion-capable operation, in the same shape as
the other fallible calls (`none` would model an assertion failure): the
source constructor contains no assertion, so it always succeeds. -/
def mkBufferPoolInstance (pool_size replacer_k : Nat) : Option BPMState :=
  some (mkBufferPool pool_size replacer_k)

/-- `AllocatePage`: `next_page_id_++`. -/
def AllocatePage (s : BPMState) : Int × BPMState :=
  (s.next_page_id, { s with next_page_id := s.next_page_id + 1 })

/-- The frame-acquisition block shared verbatim by `NewPgImp`
(lines 32-44) and the miss path of `FetchPgImp` (lines 75-89): pop the
free list when possible, otherwise evict; a dirty victim is written back
under its old page id and its stale page-table entry is erased; fail when
neither source yields a frame. -/
def obtainFrame (s : BPMState) : Option (Int × BPMState) :=
  match s.free_list with
  | fid :: rest => some (fid, { s with free_list := rest })
  | [] =>
    match s.replacer.Evict with
    | none => none
    | some (fid, r1) =>
      let p := pageAt s fid
      let disk1 := if p.is_dirty then s.disk.writePage p.page_id p.data else s.disk
      some (fid, { s with replacer := r1, disk := disk1,
                          page_table := aerase s.page_table p.page_id })

/-- `BufferPoolManagerInstance::NewPgImp`: obtain a frame, allocate a page
id, reset the frame (`pin_count = 1`, clean, zeroed), install the page
table entry, record the access and pin in the replacer. -/
def NewPgImp (s : BPMState) : Option Int × BPMState :=
  match obtainFrame s with
  | none => (none, s)
  | some (fid, s1) =>
    let a := AllocatePage s1
    let pid := a.1
    let s2 := a.2
    let p : Page := { page_id := pid, pin_count := 1, is_dirty := false, data := 0 }
    (some pid,
     { s2 with pages := pageSet s2.pages fid.toNat p,
               page_table := aemplace s2.page_table pid fid,
               replacer := (s2.replacer.RecordAccess fid).SetEvictable fid false })

/-- `BufferPoolManagerInstance::FetchPgImp`: on a hit repin the frame and
record the access; on a miss obtain a frame as in `NewPgImp`, rebind it,
read the page from disk, install it and pin it.  The returned frame id
stands for the returned `Page *`. -/
def FetchPgImp (pid : Int) (s : BPMState) : Option Int × BPMState :=
  match alookup s.page_table pid with
  | some fid =>
    let p := pageAt s fid
    (some fid,
     { s with pages := pageSet s.pages fid.toNat { p with pin_count := p.pin_count + 1 },
              replacer := (s.replacer.RecordAccess fid).SetEvictable fid false })
  | none =>
    match obtainFrame s with
    | none => (none, s)
    | some (fid, s1) =>
      let d := s1.disk.readPage pid
      let p : Page := { page_id := pid, pin_count := 1, is_dirty := false, data := d }
      (some fid,
       { s1 with pages := pageSet s1.pages fid.toNat p,
                 page_table := aemplace s1.page_table pid fid,
                 replacer := (s1.replacer.RecordAccess fid).SetEvictable fid false })

/-- `BufferPoolManagerInstance::UnpinPgImp`: fail on a non-resident page or
a zero pin count; otherwise decrement the pin count, latch the dirty flag,
and mark the frame evictable when the pin count reaches zero. -/
def UnpinPgImp (pid : Int) (is_dirty : Bool) (s : BPMState) : Bool × BPMState :=
  match alookup s.page_table pid with
  | none => (false, s)
  | some fid =>
    let p := pageAt s fid
    if p.pin_count ≤ 0 then (false, s)
    else
      let p1 := { p with pin_count := p.pin_count - 1,
                         is_dirty := p.is_dirty || is_dirty }
      let s1 := { s with pages := pageSet s.pages fid.toNat p1 }
      if p.pin_count - 1 = 0 then (true, { s1 with replacer := s1.replacer.SetEvictable fid true })
      else (true, s1)

/-- `BufferPoolManagerInstance::FlushPgImp`: fail on the sentinel or a
non-resident page; otherwise write the frame to disk and clear its dirty
flag. -/
def FlushPgImp (pid : Int) (s : BPMState) : Bool × BPMState :=
  if pid = INVALID_PAGE_ID then (false, s)
  else
    match alookup s.page_table pid with
    | none => (false, s)
    | some fid =>
      let p := pageAt s fid
      (true, { s with disk := s.disk.writePage p.page_id p.data,
                      pages := pageSet s.pages fid.toNat { p with is_dirty := false } })

/-- One iteration of `FlushAllPgsImp`'s loop over the page table. -/
def flushEntry (s : BPMState) (e : Int × Int) : BPMState :=
  let p := pageAt s e.2
  { s with disk := s.disk.writePage p.page_id p.data,
           pages := pageSet s.pages e.2.toNat { p with is_dirty := false } }

/-- `BufferPoolManagerInstance::FlushAllPgsImp`: write every page-table
entry's frame and clear its dirty flag. -/
def FlushAllPgsImp (s : BPMState) : BPMState := s.page_table.foldl flushEntry s

/-- `BufferPoolManagerInstance::DeletePgImp`: succeed as a no-op on a
non-resident page; fail on a pinned page; otherwise return the frame to the
free list, erase the page-table entry, remove the frame from the replacer
(which may assert), reset the frame and notify the disk collaborator
(`DeallocatePage`; its body is in the header, not under `src/` — modelled
from the spec: "notify the disk collaborator to deallocate the page-id on
disk", recorded on the deallocation trace). -/
def DeletePgImp (pid : Int) (s : BPMState) : Option (Bool × BPMState) :=
  match alookup s.page_table pid with
  | none => some (true, s)
  | some fid =>
    let p := pageAt s fid
    if 0 < p.pin_count then some (false, s)
    else
      match s.replacer.Remove fid with
      | none => none
      | some r1 =>
        some (true,
          { s with free_list := s.free_list ++ [fid],
                   page_table := aerase s.page_table pid,
                   replacer := r1,
                   pages := pageSet s.pages fid.toNat
                              { p with data := 0, is_dirty := false, page_id := INVALID_PAGE_ID },
                   disk := { s.disk with deallocated := pid :: s.disk.deallocated } })

/-- States reachable from a freshly constructed pool by any sequence of the
public operations.  A `DeletePgImp` that hits an assertion has no successor
state (the process aborts). -/
inductive Reach (n k : Nat) : BPMState → Prop where
  | init : Reach n k (mkBufferPool n k)
  | newpg {s : BPMState} : Reach n k s → Reach n k (NewPgImp s).2
  | fetch {s : BPMState} (pid : Int) : Reach n k s → Reach n k (FetchPgImp pid s).2
  | unpin {s : BPMState} (pid : Int) (d : Bool) : Reach n k s → Reach n k (UnpinPgImp pid d s).2
  | flush {s : BPMState} (pid : Int) : Reach n k s → Reach n k (FlushPgImp pid s).2
  | flushall {s : BPMState} : Reach n k s → Reach n k (FlushAllPgsImp s)
  | delete {s : BPMState} {r : Bool × BPMState} (pid : Int) :
      Reach n k s → DeletePgImp pid s = some r → Reach n k r.2

/-! ## Association-list and frame-array lemmas -/

theorem alookup_aupsert_self {α : Type} (l : List (Int × α)) (k : Int) (v : α) :
    alookup (aupsert l k v) k = some v := by
  induction l with
  | nil => simp [aupsert, alookup]
  | cons e t ih =>
    by_cases hek : e.1 = k
    · simp [aupsert, alookup, hek]
    · simp [aupsert, alookup, hek, ih]

theorem alookup_aupsert_ne {α : Type} (l : List (Int × α)) (k j : Int) (v : α) (h : j ≠ k) :
    alookup (aupsert l k v) j = alookup l j := by
  induction l with
  | nil => simp [aupsert, alookup, Ne.symm h]
  | cons e t ih =>
    by_cases hek : e.1 = k
    · have hkj : ¬ k = j := fun hh => h hh.symm
      have hej : ¬ e.1 = j := by rw [hek]; exact hkj
      simp [aupsert, alookup, hek, hkj, hej]
    · simp [aupsert, alookup, hek, ih]

theorem alookup_aerase_ne {α : Type} (l : List (Int × α)) (k j : Int) (h : j ≠ k) :
    alookup (aerase l k) j = alookup l j := by
  induction l with
  | nil => rfl
  | cons e t ih =>
    by_cases hek : e.1 = k
    · have hkj : ¬ k = j := fun hh => h hh.symm
      have hej : ¬ e.1 = j := by rw [hek]; exact hkj
      simp [aerase, alookup, hek, hej, hkj]
    · simp [aerase, alookup, hek, ih]

theorem alookup_eq_none_of_not_mem_keys {α : Type} {l : List (Int × α)} {k : Int}
    (h : k ∉ l.map Prod.fst) : alookup l k = none := by
  induction l with
  | nil => rfl
  | cons e t ih =>
    simp only [List.map_cons, List.mem_cons] at h
    push_neg at h
    simp [alookup, Ne.symm h.1, ih h.2]

theorem alookup_aerase_self {α : Type} {l : List (Int × α)} {k : Int}
    (h : (l.map Prod.fst).Nodup) : alookup (aerase l k) k = none := by
  induction l with
  | nil => rfl
  | cons e t ih =>
    simp only [List.map_cons, List.nodup_cons] at h
    by_cases hek : e.1 = k
    · have hk : k ∉ t.map Prod.fst := hek ▸ h.1
      simp [aerase, hek, alookup_eq_none_of_not_mem_keys hk]
    · simp [aerase, alookup, hek, ih h.2]

theorem mem_aerase {α : Type} {l : List (Int × α)} {k : Int} {e : Int × α}
    (h : e ∈ aerase l k) : e ∈ l := by
  induction l with
  | nil => simp [aerase] at h
  | cons x t ih =>
    by_cases hxk : x.1 = k
    · simp only [aerase, if_pos hxk] at h
      exact List.mem_cons_of_mem x h
    · simp only [aerase, if_neg hxk, List.mem_cons] at h
      rcases h with h | h
      · exact h ▸ List.mem_cons_self x t
      · exact List.mem_cons_of_mem x (ih h)

theorem mem_aupsert {α : Type} {l : List (Int × α)} {k : Int} {v : α} {e : Int × α}
    (h : e ∈ aupsert l k v) : e = (k, v) ∨ e ∈ l := by
  induction l with
  | nil => simpa [aupsert] using h
  | cons x t ih =>
    by_cases hxk : x.1 = k
    · simp only [aupsert, if_pos hxk, List.mem_cons] at h
      rcases h with h | h
      · exact Or.inl h
      · exact Or.inr (List.mem_cons_of_mem x h)
    · simp only [aupsert, if_neg hxk, List.mem_cons] at h
      rcases h with h | h
      · exact Or.inr (h ▸ List.mem_cons_self x t)
      · rcases ih h with h | h
        · exact Or.inl h
        · exact Or.inr (List.mem_cons_of_mem x h)

theorem alookup_mem {α : Type} {l : List (Int × α)} {k : Int} {v : α}
    (h : alookup l k = some v) : (k, v) ∈ l := by
  induction l with
  | nil => simp [alookup] at h
  | cons x t ih =>
    by_cases hxk : x.1 = k
    · simp only [alookup, if_pos hxk, Option.some.injEq] at h
      have hx : x = (k, v) := Prod.ext hxk h
      exact hx ▸ List.mem_cons_self x t
    · simp only [alookup, if_neg hxk] at h
      exact List.mem_cons_of_mem x (ih h)

theorem aupsert_of_lookup_none {α : Type} {l : List (Int × α)} {k : Int} (v : α)
    (h : alookup l k = none) : aupsert l k v = l ++ [(k, v)] := by
  induction l with
  | nil => rfl
  | cons x t ih =>
    by_cases hxk : x.1 = k
    · simp [alookup, hxk] at h
    · simp only [alookup, if_neg hxk] at h
      simp [aupsert, hxk, ih h]

theorem aupsert_lookup_self {α : Type} {l : List (Int × α)} {k : Int} {v : α}
    (h : alookup l k = some v) : aupsert l k v = l := by
  induction l with
  | nil => simp [alookup] at h
  | cons x t ih =>
    by_cases hxk : x.1 = k
    · simp only [alookup, if_pos hxk, Option.some.injEq] at h
      have hx : (k, v) = x := (Prod.ext hxk h).symm
      simp [aupsert, hxk, hx]
    · simp only [alookup, if_neg hxk] at h
      simp [aupsert, hxk, ih h]

theorem aerase_sublist {α : Type} (l : List (Int × α)) (k : Int) :
    (aerase l k).Sublist l := by
  induction l with
  | nil => simp [aerase]
  | cons x t ih =>
    by_cases hxk : x.1 = k
    · simpa [aerase, hxk] using List.sublist_cons_self x t
    · simpa [aerase, hxk] using List.Sublist.cons₂ x ih

theorem mem_keys_aupsert {α : Type} {l : List (Int × α)} {k j : Int} {v : α}
    (h : j ∈ (aupsert l k v).map Prod.fst) : j ∈ l.map Prod.fst ∨ j = k := by
  simp only [List.mem_map] at h
  rcases h with ⟨e, he, hej⟩
  rcases mem_aupsert he with h | h
  · exact Or.inr (hej ▸ h ▸ rfl)
  · exact Or.inl (List.mem_map.mpr ⟨e, h, hej⟩)

theorem keys_nodup_aupsert {α : Type} {l : List (Int × α)} (k : Int) (v : α)
    (h : (l.map Prod.fst).Nodup) : ((aupsert l k v).map Prod.fst).Nodup := by
  induction l with
  | nil => simp [aupsert]
  | cons x t ih =>
    rw [List.map_cons, List.nodup_cons] at h
    by_cases hxk : x.1 = k
    · simp only [aupsert, if_pos hxk, List.map_cons, List.nodup_cons]
      exact ⟨hxk ▸ h.1, h.2⟩
    · simp only [aupsert, if_neg hxk, List.map_cons, List.nodup_cons]
      refine ⟨?_, ih h.2⟩
      intro hmem
      rcases mem_keys_aupsert hmem with h1 | h1
      · exact h.1 h1
      · exact hxk h1

theorem keys_nodup_aerase {α : Type} {l : List (Int × α)} (k : Int)
    (h : (l.map Prod.fst).Nodup) : ((aerase l k).map Prod.fst).Nodup :=
  ((aerase_sublist l k).map Prod.fst).nodup h

/-- Entry decomposition for `aupsert` under distinct keys. -/
theorem mem_aupsert_nodup {α : Type} {l : List (Int × α)} {k : Int} {v : α} {e : Int × α}
    (hnd : (l.map Prod.fst).Nodup) (h : e ∈ aupsert l k v) :
    e = (k, v) ∨ (e ∈ l ∧ e.1 ≠ k) := by
  induction l with
  | nil => simpa [aupsert] using h
  | cons x t ih =>
    rw [List.map_cons, List.nodup_cons] at hnd
    by_cases hxk : x.1 = k
    · simp only [aupsert, if_pos hxk, List.mem_cons] at h
      rcases h with h | h
      · exact Or.inl h
      · refine Or.inr ⟨List.mem_cons_of_mem x h, ?_⟩
        intro hek
        exact hnd.1 (hxk ▸ hek ▸ List.mem_map.mpr ⟨e, h, rfl⟩)
    · simp only [aupsert, if_neg hxk, List.mem_cons] at h
      rcases h with h | h
      · exact Or.inr ⟨h ▸ List.mem_cons_self x t, h ▸ hxk⟩
      · rcases ih hnd.2 h with h1 | h1
        · exact Or.inl h1
        · exact Or.inr ⟨List.mem_cons_of_mem x h1.1, h1.2⟩

theorem pageSet_length (l : List Page) (n : Nat) (p : Page) :
    (pageSet l n p).length = l.length := by
  induction l generalizing n with
  | nil => rfl
  | cons x t ih =>
    cases n with
    | zero => rfl
    | succ m => simp [pageSet, ih]

theorem pageGet_pageSet_self (l : List Page) (n : Nat) (p : Page) (h : n < l.length) :
    pageGet (pageSet l n p) n = p := by
  induction l generalizing n with
  | nil => exact absurd h (by simp)
  | cons x t ih =>
    cases n with
    | zero => rfl
    | succ m => exact ih m (Nat.lt_of_succ_lt_succ h)

theorem pageGet_pageSet_ne (l : List Page) (n m : Nat) (p : Page) (h : n ≠ m) :
    pageGet (pageSet l n p) m = pageGet l m := by
  induction l generalizing n m with
  | nil => rfl
  | cons x t ih =>
    cases n with
    | zero =>
      cases m with
      | zero => exact absurd rfl h
      | succ j => rfl
    | succ i =>
      cases m with
      | zero => rfl
      | succ j => exact ih i j (fun hh => h (by rw [hh]))

theorem pageSet_of_le (l : List Page) (n : Nat) (p : Page) (h : l.length ≤ n) :
    pageSet l n p = l := by
  induction l generalizing n with
  | nil => rfl
  | cons x t ih =>
    cases n with
    | zero => exact absurd h (by simp)
    | succ m => simp [pageSet, ih m (Nat.le_of_succ_le_succ h)]

theorem pageGet_of_le (l : List Page) (n : Nat) (h : l.length ≤ n) :
    pageGet l n = defaultPage := by
  induction l generalizing n with
  | nil => rfl
  | cons x t ih =>
    cases n with
    | zero => exact absurd h (by simp)
    | succ m => exact ih m (Nat.le_of_succ_le_succ h)

/-! ## Correctness of the victim-selection loop of `Evict` -/

/-- The loop's strict preference: `(d1, t1)` is kept over `(d2, t2)`. -/
def beats (d1 t1 d2 t2 : Nat) : Prop := d2 < d1 ∨ (d2 = d1 ∧ t1 < t2)

/-- Weak preference between accumulator values (equal `(max_d, t)` or
strictly preferred). -/
def wbeats (a b : ScanAcc) : Prop :=
  (a.max_d = b.max_d ∧ a.t = b.t) ∨ beats a.max_d a.t b.max_d b.t

theorem beats_trans {d1 t1 d2 t2 d3 t3 : Nat}
    (h1 : beats d1 t1 d2 t2) (h2 : beats d2 t2 d3 t3) : beats d1 t1 d3 t3 := by
  rcases h1 with h1 | ⟨h1, h1t⟩ <;> rcases h2 with h2 | ⟨h2, h2t⟩
  · exact Or.inl (h2.trans h1)
  · exact Or.inl (h2 ▸ h1)
  · exact Or.inl (h1 ▸ h2)
  · exact Or.inr ⟨h2.trans h1, h1t.trans h2t⟩

theorem wbeats_beats {a b : ScanAcc} {d t : Nat}
    (h1 : wbeats a b) (h2 : beats b.max_d b.t d t) : beats a.max_d a.t d t := by
  rcases h1 with ⟨h1, h1t⟩ | h1
  · rw [h1, h1t]; exact h2
  · exact beats_trans h1 h2

theorem wbeats_beats_of_t_ne {a b : ScanAcc} (h : wbeats a b) (hne : a.t ≠ b.t) :
    beats a.max_d a.t b.max_d b.t := by
  rcases h with ⟨_, h2⟩ | h1
  · exact absurd h2 hne
  · exact h1

/-- Well-formedness of one frame record at current time `cur`: a real frame
id, a nonempty history, all timestamps in the past. -/
def EWF (cur : Nat) (e : Int × FrameInfo) : Prop :=
  0 ≤ e.1 ∧ e.2.timestamp ≠ [] ∧ ∀ x ∈ e.2.timestamp, x < cur

instance (cur : Nat) (e : Int × FrameInfo) : Decidable (EWF cur e) := by
  unfold EWF; infer_instance

/-- Well-formedness of a replacer state, as established by any use through
the buffer pool manager: `k ≥ 1`, the timestamp counter not yet saturated,
well-formed records, pairwise distinct oldest timestamps, distinct keys,
and `curr_size_` counting the evictable frames. -/
def ReplacerWF (r : LRUKReplacer) : Prop :=
  1 ≤ r.k ∧
  r.current_timestamp < SIZE_MAX ∧
  (∀ e ∈ r.frame_table, EWF r.current_timestamp e) ∧
  r.frame_table.Pairwise (fun a b => front a.2 ≠ front b.2) ∧
  (r.frame_table.map Prod.fst).Nodup ∧
  r.curr_size = (r.frame_table.filter (fun e => e.2.evictable)).length

instance (r : LRUKReplacer) : Decidable (ReplacerWF r) := by
  unfold ReplacerWF; infer_instance

theorem headI_mem {l : List Nat} (h : l ≠ []) : l.headI ∈ l := by
  cases l with
  | nil => exact absurd rfl h
  | cons a t => exact List.mem_cons_self a t

theorem front_lt_cur {cur : Nat} {e : Int × FrameInfo} (h : EWF cur e) :
    front e.2 < cur :=
  h.2.2 _ (headI_mem h.2.1)

theorem SIZE_MAX_pos : 0 < SIZE_MAX := by norm_num [SIZE_MAX]

theorem codeD_le_SIZE_MAX {k cur : Nat} {i : FrameInfo} (hcur : cur < SIZE_MAX) :
    codeD k cur i ≤ SIZE_MAX := by
  unfold codeD
  split
  · exact le_of_lt (lt_of_le_of_lt (Nat.sub_le _ _) hcur)
  · exact le_refl _

theorem codeD_lt_of_finite {k cur : Nat} {i : FrameInfo} (hcur : cur < SIZE_MAX)
    (hfin : k ≤ i.timestamp.length) : codeD k cur i < SIZE_MAX := by
  unfold codeD
  rw [if_pos hfin]
  exact lt_of_le_of_lt (Nat.sub_le _ _) hcur

theorem codeD_pos {k cur : Nat} {e : Int × FrameInfo} (hk : 1 ≤ k) (h : EWF cur e) :
    0 < codeD k cur e.2 := by
  unfold codeD
  split
  · next hfin =>
    have hlen : k - 1 < e.2.timestamp.reverse.length := by
      rw [List.length_reverse]
      exact lt_of_lt_of_le (Nat.sub_lt hk one_pos) hfin
    rw [List.getD_eq_getElem _ _ hlen]
    have hmem : e.2.timestamp.reverse[k - 1] ∈ e.2.timestamp.reverse :=
      List.getElem_mem hlen
    have hlt : e.2.timestamp.reverse[k - 1] < cur :=
      h.2.2 _ (List.mem_reverse.mp hmem)
    exact Nat.sub_pos_of_lt hlt
  · exact SIZE_MAX_pos

/-- A scan over non-evictable frames leaves the accumulator unchanged. -/
theorem scan_id (k cur : Nat) (l : List (Int × FrameInfo)) (acc : ScanAcc)
    (h : ∀ e ∈ l, e.2.evictable = false) :
    l.foldl (scanStep k cur) acc = acc := by
  induction l generalizing acc with
  | nil => rfl
  | cons x t ih =>
    have hx : x.2.evictable = false := h x (List.mem_cons_self x t)
    have hs : scanStep k cur acc x = acc := by simp [scanStep, hx]
    rw [List.foldl_cons, hs]
    exact ih acc (fun e he => h e (List.mem_cons_of_mem x he))

/-- Provenance: the scan result is the initial accumulator or the data of
some evictable entry of the list. -/
theorem scan_prov (k cur : Nat) (l : List (Int × FrameInfo)) (acc : ScanAcc) :
    l.foldl (scanStep k cur) acc = acc ∨
      ∃ e ∈ l, e.2.evictable = true ∧
        l.foldl (scanStep k cur) acc = ⟨codeD k cur e.2, front e.2, e.1⟩ := by
  induction l generalizing acc with
  | nil => exact Or.inl rfl
  | cons x t ih =>
    rw [List.foldl_cons]
    rcases ih (scanStep k cur acc x) with h | ⟨e, he, hev, heq⟩
    · by_cases hx : x.2.evictable = true
      · by_cases hc : (front x.2 < acc.t ∧ codeD k cur x.2 = acc.max_d) ∨
            acc.max_d < codeD k cur x.2
        · exact Or.inr ⟨x, List.mem_cons_self x t, hx, by rw [h]; simp [scanStep, hx, hc]⟩
        · exact Or.inl (by rw [h]; simp [scanStep, hx, hc])
      · exact Or.inl (by rw [h]; simp [scanStep, hx])
    · exact Or.inr ⟨e, List.mem_cons_of_mem x he, hev, heq⟩

/-- Main loop invariant of the `Evict` scan: the final accumulator weakly
dominates the initial one and strictly dominates every evictable entry it
does not itself denote. -/
theorem scan_main (k cur : Nat)
    (l : List (Int × FrameInfo)) (acc : ScanAcc)
    (hwf : ∀ e ∈ l, EWF cur e)
    (hpw : l.Pairwise (fun a b => front a.2 ≠ front b.2))
    (hfr : ∀ e ∈ l, e.2.evictable = true → front e.2 ≠ acc.t) :
    wbeats (l.foldl (scanStep k cur) acc) acc ∧
      (∀ e ∈ l, e.2.evictable = true →
        (l.foldl (scanStep k cur) acc).t ≠ front e.2 →
        beats (l.foldl (scanStep k cur) acc).max_d (l.foldl (scanStep k cur) acc).t
          (codeD k cur e.2) (front e.2)) := by
  induction l generalizing acc with
  | nil =>
    refine ⟨Or.inl ⟨rfl, rfl⟩, ?_⟩
    intro e he
    simp at he
  | cons x t ih =>
    rw [List.foldl_cons]
    have hwf_t : ∀ e ∈ t, EWF cur e := fun e he => hwf e (List.mem_cons_of_mem x he)
    have hpw' := List.pairwise_cons.mp hpw
    by_cases hx : x.2.evictable = true
    · by_cases hc : (front x.2 < acc.t ∧ codeD k cur x.2 = acc.max_d) ∨
          acc.max_d < codeD k cur x.2
      · -- the loop takes frame x
        have hstep : scanStep k cur acc x = ⟨codeD k cur x.2, front x.2, x.1⟩ := by
          simp [scanStep, hx, hc]
        rw [hstep]
        have hfr' : ∀ e ∈ t, e.2.evictable = true →
            front e.2 ≠ (ScanAcc.mk (codeD k cur x.2) (front x.2) x.1).t :=
          fun e he _ => Ne.symm (hpw'.1 e he)
        obtain ⟨hwb, hdom⟩ := ih (ScanAcc.mk (codeD k cur x.2) (front x.2) x.1) hwf_t hpw'.2 hfr'
        have hbx : beats (codeD k cur x.2) (front x.2) acc.max_d acc.t := by
          rcases hc with ⟨h1, h2⟩ | h1
          · exact Or.inr ⟨h2.symm, h1⟩
          · exact Or.inl h1
        constructor
        · exact Or.inr (wbeats_beats hwb hbx)
        · intro e he hev hne
          rcases List.mem_cons.mp he with rfl | he'
          · exact wbeats_beats_of_t_ne hwb hne
          · exact hdom e he' hev hne
      · -- frame x is evictable but loses to the accumulator
        have hstep : scanStep k cur acc x = acc := by simp [scanStep, hx, hc]
        rw [hstep]
        have hfr_t : ∀ e ∈ t, e.2.evictable = true → front e.2 ≠ acc.t :=
          fun e he hev => hfr e (List.mem_cons_of_mem x he) hev
        obtain ⟨hwb, hdom⟩ := ih acc hwf_t hpw'.2 hfr_t
        refine ⟨hwb, ?_⟩
        intro e he hev hne
        rcases List.mem_cons.mp he with rfl | he'
        · have hne_x : front e.2 ≠ acc.t := hfr e (List.mem_cons_self e t) hev
          have hbax : beats acc.max_d acc.t (codeD k cur e.2) (front e.2) := by
            rcases Nat.lt_trichotomy (codeD k cur e.2) acc.max_d with h1 | h1 | h1
            · exact Or.inl h1
            · have h2 : ¬ front e.2 < acc.t := fun hlt => hc (Or.inl ⟨hlt, h1⟩)
              exact Or.inr ⟨h1, lt_of_le_of_ne (Nat.le_of_not_lt h2) (Ne.symm hne_x)⟩
            · exact absurd (Or.inr h1) hc
          exact wbeats_beats hwb hbax
        · exact hdom e he' hev hne
    · -- frame x is not evictable: skipped
      have hstep : scanStep k cur acc x = acc := by simp [scanStep, hx]
      rw [hstep]
      have hfr_t : ∀ e ∈ t, e.2.evictable = true → front e.2 ≠ acc.t :=
        fun e he hev => hfr e (List.mem_cons_of_mem x he) hev
      obtain ⟨hwb, hdom⟩ := ih acc hwf_t hpw'.2 hfr_t
      refine ⟨hwb, ?_⟩
      intro e he hev hne
      rcases List.mem_cons.mp he with rfl | he'
      · exact absurd hev (by simpa using hx)
      · exact hdom e he' hev hne

/-! ## Spec-level backward k-distance and the `Evict` characterisation -/

/-- The spec's backward k-distance at time `cur`: `cur` minus the timestamp
of the k-th most recent access when the frame has at least `k` recorded
accesses, `+∞` (`none`) otherwise. -/
def bkDistance (k cur : Nat) (i : FrameInfo) : Option Nat :=
  if k ≤ i.timestamp.length then some (cur - i.timestamp.reverse.getD (k - 1) 0)
  else none

/-- Strict order on backward k-distances, `none` being `+∞`. -/
def distLt : Option Nat → Option Nat → Prop
  | some a, some b => a < b
  | some _, none => True
  | none, _ => False

instance : (a b : Option Nat) → Decidable (distLt a b)
  | some a, some b => inferInstanceAs (Decidable (a < b))
  | some _, none => inferInstanceAs (Decidable True)
  | none, some _ => inferInstanceAs (Decidable False)
  | none, none => inferInstanceAs (Decidable False)

/-- `f` loses the eviction contest to `v`: its backward k-distance is
smaller, or the distances tie and `v`'s oldest retained timestamp is
smaller. -/
def losesTo (k cur : Nat) (f v : FrameInfo) : Prop :=
  distLt (bkDistance k cur f) (bkDistance k cur v) ∨
    (bkDistance k cur f = bkDistance k cur v ∧ front v < front f)

theorem codeD_of_finite {k cur : Nat} {i : FrameInfo} (h : k ≤ i.timestamp.length) :
    codeD k cur i = cur - i.timestamp.reverse.getD (k - 1) 0 := if_pos h

theorem codeD_of_inf {k cur : Nat} {i : FrameInfo} (h : ¬ k ≤ i.timestamp.length) :
    codeD k cur i = SIZE_MAX := if_neg h

theorem bkDistance_of_finite {k cur : Nat} {i : FrameInfo} (h : k ≤ i.timestamp.length) :
    bkDistance k cur i = some (codeD k cur i) := by
  rw [codeD_of_finite h]; exact if_pos h

theorem bkDistance_of_inf {k cur : Nat} {i : FrameInfo} (h : ¬ k ≤ i.timestamp.length) :
    bkDistance k cur i = none := if_neg h

/-- Translate the loop's preference into the spec's: when the winner's
`(d, front)` beats the loser's, the loser has the smaller backward
k-distance or ties with a larger oldest timestamp. -/
theorem beats_losesTo {k cur : Nat} {f v : FrameInfo} (hcur : cur < SIZE_MAX)
    (hb : beats (codeD k cur v) (front v) (codeD k cur f) (front f)) :
    losesTo k cur f v := by
  by_cases hf : k ≤ f.timestamp.length <;> by_cases hv : k ≤ v.timestamp.length
  · rcases hb with h | ⟨h, ht⟩
    · exact Or.inl (by rw [bkDistance_of_finite hf, bkDistance_of_finite hv]; exact h)
    · exact Or.inr ⟨by rw [bkDistance_of_finite hf, bkDistance_of_finite hv, h], ht⟩
  · exact Or.inl (by rw [bkDistance_of_finite hf, bkDistance_of_inf hv]; trivial)
  · exfalso
    rcases hb with h | ⟨h, _⟩
    · exact absurd ((codeD_of_inf hf) ▸ h) (not_lt_of_le (codeD_le_SIZE_MAX hcur))
    · exact absurd ((codeD_of_inf hf) ▸ h) (ne_of_lt (codeD_lt_of_finite hcur hv)).symm
  · rcases hb with h | ⟨h, ht⟩
    · exact absurd ((codeD_of_inf hf) ▸ (codeD_of_inf hv) ▸ h) (lt_irrefl _)
    · exact Or.inr ⟨by rw [bkDistance_of_inf hf, bkDistance_of_inf hv], ht⟩

/-- When no tracked frame is evictable, `Evict` fails. -/
theorem evict_none_of_no_evictable (r : LRUKReplacer)
    (h : ∀ e ∈ r.frame_table, e.2.evictable = false) : r.Evict = none := by
  simp only [LRUKReplacer.Evict]
  rw [scan_id _ _ _ _ h]
  rfl

/-- Any successful `Evict` returns a tracked evictable frame and erases its
record, decrementing `curr_size_`. -/
theorem evict_some_cases {r : LRUKReplacer} {v : Int} {r1 : LRUKReplacer}
    (h : r.Evict = some (v, r1)) :
    (∃ i, (v, i) ∈ r.frame_table ∧ i.evictable = true) ∧
      r1 = { r with curr_size := r.curr_size - 1,
                    frame_table := aerase r.frame_table v } := by
  simp only [LRUKReplacer.Evict] at h
  rcases scan_prov r.k r.current_timestamp r.frame_table ⟨0, SIZE_MAX, INVALID_FRAME_ID⟩ with
    hp | ⟨e, he, hev, heq⟩
  · rw [hp] at h
    simp at h
  · rw [heq] at h
    by_cases hs : e.1 = INVALID_FRAME_ID
    · simp [hs] at h
    · simp only [hs, if_false, Option.some.injEq, Prod.mk.injEq] at h
      exact ⟨⟨e.2, h.1 ▸ he, hev⟩, h.1 ▸ h.2.symm⟩

/-- Under well-formedness, if some tracked frame is evictable then `Evict`
returns a tracked evictable frame whose `(d, front)` pair beats every other
evictable frame's. -/
theorem evict_wf_spec (r : LRUKReplacer) (hwf : ReplacerWF r)
    (e0 : Int × FrameInfo) (he0 : e0 ∈ r.frame_table) (hev0 : e0.2.evictable = true) :
    ∃ w, w ∈ r.frame_table ∧ w.2.evictable = true ∧
      r.Evict = some (w.1, { r with curr_size := r.curr_size - 1,
                                    frame_table := aerase r.frame_table w.1 }) ∧
      (∀ f ∈ r.frame_table, f.2.evictable = true → f.1 ≠ w.1 →
        beats (codeD r.k r.current_timestamp w.2) (front w.2)
              (codeD r.k r.current_timestamp f.2) (front f.2)) := by
  obtain ⟨hk, hcur, hewf, hpw, hnd, hcs⟩ := hwf
  have hfr : ∀ e ∈ r.frame_table, e.2.evictable = true →
      front e.2 ≠ (ScanAcc.mk 0 SIZE_MAX INVALID_FRAME_ID).t := by
    intro e he _
    exact ne_of_lt (lt_trans (front_lt_cur (hewf e he)) hcur)
  obtain ⟨hwb, hdom⟩ :=
    scan_main r.k r.current_timestamp r.frame_table ⟨0, SIZE_MAX, INVALID_FRAME_ID⟩ hewf hpw hfr
  rcases scan_prov r.k r.current_timestamp r.frame_table ⟨0, SIZE_MAX, INVALID_FRAME_ID⟩ with
    hp | ⟨w, hw, hevw, heq⟩
  · exfalso
    have hne : (r.frame_table.foldl (scanStep r.k r.current_timestamp)
        ⟨0, SIZE_MAX, INVALID_FRAME_ID⟩).t ≠ front e0.2 := by
      rw [hp]
      exact Ne.symm (hfr e0 he0 hev0)
    have hbeats := hdom e0 he0 hev0 hne
    rw [hp] at hbeats
    rcases hbeats with h1 | ⟨h1, _⟩
    · exact absurd h1 (Nat.not_lt_zero _)
    · exact absurd h1 (ne_of_gt (codeD_pos hk (hewf e0 he0)))
  · refine ⟨w, hw, hevw, ?_, ?_⟩
    · have hw1 : w.1 ≠ INVALID_FRAME_ID := by
        have h0 : (0 : Int) ≤ w.1 := (hewf w hw).1
        intro hww
        rw [hww] at h0
        exact absurd h0 (by norm_num [INVALID_FRAME_ID])
      simp only [LRUKReplacer.Evict]
      rw [heq]
      simp [hw1]
    · intro f hf hevf hne
      have hfw : f ≠ w := fun hh => hne (hh ▸ rfl)
      have hsym : Symmetric (fun a b : Int × FrameInfo => front a.2 ≠ front b.2) := by
        intro a b h
        exact Ne.symm h
      have hfrne : front w.2 ≠ front f.2 := hpw.forall hsym hw hf (Ne.symm hfw)
      have hne2 : (r.frame_table.foldl (scanStep r.k r.current_timestamp)
          ⟨0, SIZE_MAX, INVALID_FRAME_ID⟩).t ≠ front f.2 := by
        rw [heq]
        exact hfrne
      have hb := hdom f hf hevf hne2
      rw [heq] at hb
      exact hb

/-- Claim C1: for every well-formed replacer state with at least one
evictable tracked frame, `Evict` returns the evictable frame with the
largest backward k-distance (`+∞` when fewer than `k` accesses are
recorded), ties at `+∞` or at a finite maximum going to the frame with the
smallest oldest retained timestamp; with no evictable frame it returns
nothing; on success the victim's record is erased and `curr_size`
decreases by one. -/
theorem Evict_selects_max_backward_k_distance (r : LRUKReplacer) (hwf : ReplacerWF r) :
    ((∀ e ∈ r.frame_table, e.2.evictable = false) → r.Evict = none) ∧
    (∀ e0 ∈ r.frame_table, e0.2.evictable = true →
      ∃ v vinfo r1, r.Evict = some (v, r1) ∧
        (v, vinfo) ∈ r.frame_table ∧ vinfo.evictable = true ∧
        (∀ f ∈ r.frame_table, f.2.evictable = true → f.1 ≠ v →
          losesTo r.k r.current_timestamp f.2 vinfo) ∧
        r1.frame_table = aerase r.frame_table v ∧
        r1.curr_size + 1 = r.curr_size) := by
  refine ⟨evict_none_of_no_evictable r, ?_⟩
  intro e0 he0 hev0
  obtain ⟨w, hw, hevw, hEv, hdom⟩ := evict_wf_spec r hwf e0 he0 hev0
  refine ⟨w.1, w.2, _, hEv, ?_, hevw, ?_, rfl, ?_⟩
  · rw [Prod.mk.eta]
    exact hw
  · intro f hf hevf hne
    exact beats_losesTo hwf.2.1 (hdom f hf hevf hne)
  · have hmem : w ∈ r.frame_table.filter (fun e => e.2.evictable) :=
      List.mem_filter.mpr ⟨hw, hevw⟩
    have hpos : 0 < r.curr_size := by
      rw [hwf.2.2.2.2.2]
      exact List.length_pos.mpr (List.ne_nil_of_mem hmem)
    exact Nat.succ_pred_eq_of_pos hpos

/-- Witness for C1: a concrete two-frame state with `k = 2` where frame 0
has two accesses (finite distance) and frame 1 has one (infinite
distance); the theorem applies and yields frame 1 as the victim. -/
theorem Evict_selects_max_backward_k_distance_witness :
    ∃ v vinfo r1,
      (⟨[(0, ⟨[1, 3], true⟩), (1, ⟨[2], true⟩)], 4, 2, 4, 2⟩ : LRUKReplacer).Evict =
          some (v, r1) ∧
        (v, vinfo) ∈
          (⟨[(0, ⟨[1, 3], true⟩), (1, ⟨[2], true⟩)], 4, 2, 4, 2⟩ : LRUKReplacer).frame_table ∧
        vinfo.evictable = true ∧
        (∀ f ∈ (⟨[(0, ⟨[1, 3], true⟩), (1, ⟨[2], true⟩)], 4, 2, 4, 2⟩ :
            LRUKReplacer).frame_table, f.2.evictable = true → f.1 ≠ v →
          losesTo 2 4 f.2 vinfo) ∧
        r1.frame_table =
          aerase (⟨[(0, ⟨[1, 3], true⟩), (1, ⟨[2], true⟩)], 4, 2, 4, 2⟩ :
            LRUKReplacer).frame_table v ∧
        r1.curr_size + 1 = 2 :=
  (Evict_selects_max_backward_k_distance
      ⟨[(0, ⟨[1, 3], true⟩), (1, ⟨[2], true⟩)], 4, 2, 4, 2⟩ (by decide)).2
    (1, ⟨[2], true⟩) (by decide) (by decide)

/-! ## Claims on `SetEvictable`, `Remove` and the constructor -/

/-- Claim C9: `SetEvictable(f, true)` on an untracked frame inserts a fresh
record with an empty access history, marked evictable, and increases
`Size()` by one, so the frame becomes tracked and eligible for eviction
without any recorded access. -/
theorem SetEvictable_untracked_inserts (r : LRUKReplacer) (fid : Int)
    (h : alookup r.frame_table fid = none) :
    (r.SetEvictable fid true).frame_table = r.frame_table ++ [(fid, ⟨[], true⟩)] ∧
      alookup (r.SetEvictable fid true).frame_table fid = some ⟨[], true⟩ ∧
      (r.SetEvictable fid true).Size = r.Size + 1 := by
  have hft : r.SetEvictable fid true =
      { r with frame_table := aupsert r.frame_table fid ⟨[], true⟩,
               curr_size := r.curr_size + 1 } := by
    simp [LRUKReplacer.SetEvictable, h, defaultFrameInfo]
  refine ⟨?_, ?_, ?_⟩
  · rw [hft]
    exact aupsert_of_lookup_none _ h
  · rw [hft]
    exact alookup_aupsert_self _ _ _
  · rw [hft]
    rfl

/-- Witness for C9: inserting untracked frame 3 into a fresh replacer. -/
theorem SetEvictable_untracked_inserts_witness :
    ((mkLRUKReplacer 4 2).SetEvictable 3 true).frame_table =
        (mkLRUKReplacer 4 2).frame_table ++ [(3, ⟨[], true⟩)] ∧
      alookup ((mkLRUKReplacer 4 2).SetEvictable 3 true).frame_table 3 = some ⟨[], true⟩ ∧
      ((mkLRUKReplacer 4 2).SetEvictable 3 true).Size = (mkLRUKReplacer 4 2).Size + 1 :=
  SetEvictable_untracked_inserts (mkLRUKReplacer 4 2) 3 (by decide)

/-- Claim C10: `Remove` on a frame id at or above the capacity asserts
(even when untracked); `Remove` on an in-range untracked frame is a silent
no-op leaving the whole replacer state (so `curr_size` and the table)
unchanged. -/
theorem Remove_out_of_range_asserts_untracked_noop (r : LRUKReplacer) (fid : Int) :
    ((r.replacer_size : Int) ≤ fid → r.Remove fid = none) ∧
      (fid < (r.replacer_size : Int) → alookup r.frame_table fid = none →
        r.Remove fid = some r) := by
  constructor
  · intro h
    simp [LRUKReplacer.Remove, h]
  · intro h1 h2
    simp [LRUKReplacer.Remove, not_le.mpr h1, h2]

/-- Witness for C10: a fresh replacer of capacity 2 — removing frame 5
asserts, removing untracked in-range frame 1 is a no-op. -/
theorem Remove_out_of_range_asserts_untracked_noop_witness :
    (mkLRUKReplacer 2 2).Remove 5 = none ∧
      (mkLRUKReplacer 2 2).Remove 1 = some (mkLRUKReplacer 2 2) :=
  ⟨(Remove_out_of_range_asserts_untracked_noop (mkLRUKReplacer 2 2) 5).1 (by decide),
   (Remove_out_of_range_asserts_untracked_noop (mkLRUKReplacer 2 2) 1).2 (by decide) (by decide)⟩

/-- Counterexample to C8: constructing with `pool_size = 0` does not
trigger a fatal assertion — neither constructor contains one — and yields
a fully formed (empty) pool state. -/
theorem construct_pool_size_zero_no_assert :
    mkBufferPoolInstance 0 2 =
      some { pool_size := 0, pages := [], page_table := [], free_list := [],
             replacer := ⟨[], 0, 2, 0, 0⟩, next_page_id := 0, disk := ⟨[], [], []⟩ } := rfl

/-- Claim C8 (amended): constructing with `pool_size = 0` completes without
assertion, yielding a pool with no frames and an empty free list, on which
`NewPage` returns null. -/
theorem construct_pool_size_zero_ok :
    ∃ s0, mkBufferPoolInstance 0 2 = some s0 ∧ s0.pages = [] ∧ s0.free_list = [] ∧
      (NewPgImp s0).1 = none :=
  ⟨mkBufferPool 0 2, rfl, rfl, rfl, rfl⟩

/-! ## Claims on `UnpinPage`, `FlushPage`, `DeletePage` -/

/-- After `SetEvictable`, the frame's record exists and carries the
requested flag, with its history untouched. -/
theorem alookup_SetEvictable_self (r : LRUKReplacer) (fid : Int) (b : Bool) :
    alookup (r.SetEvictable fid b).frame_table fid =
      some ⟨((alookup r.frame_table fid).getD defaultFrameInfo).timestamp, b⟩ := by
  simp only [LRUKReplacer.SetEvictable]
  by_cases h : ((alookup r.frame_table fid).getD defaultFrameInfo).evictable ≠ b
  · rw [if_pos h]
    exact alookup_aupsert_self _ _ _
  · rw [if_neg h]
    rw [alookup_aupsert_self, ← not_ne_iff.mp h]

/-- Claim C7: `FlushPage` returns false on the sentinel or a non-resident
page and changes nothing; otherwise it writes the frame's data to disk
under the frame's page id, clears only the dirty flag, returns true, and
leaves the page table, free list and replacer unchanged. -/
theorem FlushPgImp_spec (pid : Int) (s : BPMState) :
    (pid = INVALID_PAGE_ID → FlushPgImp pid s = (false, s)) ∧
      (pid ≠ INVALID_PAGE_ID → alookup s.page_table pid = none →
        FlushPgImp pid s = (false, s)) ∧
      (∀ fid, pid ≠ INVALID_PAGE_ID → alookup s.page_table pid = some fid →
        (FlushPgImp pid s).1 = true ∧
        (FlushPgImp pid s).2.disk.writes =
          ((pageAt s fid).page_id, (pageAt s fid).data) :: s.disk.writes ∧
        pageAt (FlushPgImp pid s).2 fid = { pageAt s fid with is_dirty := false } ∧
        (FlushPgImp pid s).2.page_table = s.page_table ∧
        (FlushPgImp pid s).2.free_list = s.free_list ∧
        (FlushPgImp pid s).2.replacer = s.replacer) := by
  refine ⟨?_, ?_, ?_⟩
  · intro h
    simp [FlushPgImp, h]
  · intro h1 h2
    simp [FlushPgImp, h1, h2]
  · intro fid h1 h2
    refine ⟨by simp [FlushPgImp, h1, h2], by simp [FlushPgImp, h1, h2, Disk.writePage], ?_,
      by simp [FlushPgImp, h1, h2], by simp [FlushPgImp, h1, h2], by simp [FlushPgImp, h1, h2]⟩
    by_cases hrange : fid.toNat < s.pages.length
    · simp [FlushPgImp, h1, h2, pageAt, pageGet_pageSet_self _ _ _ hrange]
    · have hle := Nat.le_of_not_lt hrange
      have hpg : pageGet s.pages fid.toNat = defaultPage := pageGet_of_le _ _ hle
      have hps : ∀ p, pageSet s.pages fid.toNat p = s.pages := fun p => pageSet_of_le _ _ _ hle
      simp [FlushPgImp, h1, h2, pageAt, hps, hpg, defaultPage]

/-- A one-frame pool holding a dirty pinned page, for the C7 witness. -/
def flushExState : BPMState :=
  { pool_size := 1, pages := [⟨0, 1, true, 9⟩], page_table := [(0, 0)], free_list := [],
    replacer := ⟨[(0, ⟨[0], false⟩)], 1, 2, 1, 0⟩, next_page_id := 1, disk := ⟨[], [], []⟩ }

/-- Witness for C7: flushing the resident dirty page 0 writes it back,
clears dirty, and touches nothing else. -/
theorem FlushPgImp_spec_witness :
    (FlushPgImp 0 flushExState).1 = true ∧
      (FlushPgImp 0 flushExState).2.disk.writes =
        ((pageAt flushExState 0).page_id, (pageAt flushExState 0).data) ::
          flushExState.disk.writes ∧
      pageAt (FlushPgImp 0 flushExState).2 0 =
        { pageAt flushExState 0 with is_dirty := false } ∧
      (FlushPgImp 0 flushExState).2.page_table = flushExState.page_table ∧
      (FlushPgImp 0 flushExState).2.free_list = flushExState.free_list ∧
      (FlushPgImp 0 flushExState).2.replacer = flushExState.replacer :=
  (FlushPgImp_spec 0 flushExState).2.2 0 (by decide) (by decide)

/-- Claim C5: `UnpinPage` returns false and leaves the pool unchanged when
the page is not resident or its pin count is already zero; otherwise it
decrements the pin count, ORs the caller's dirty flag into the frame's
(true latches, false never clears), marks the frame evictable in the
replacer exactly when the pin count reaches zero (the replacer is untouched
otherwise), and returns true. -/
theorem UnpinPgImp_spec (pid : Int) (d : Bool) (s : BPMState) :
    (alookup s.page_table pid = none → UnpinPgImp pid d s = (false, s)) ∧
      (∀ fid, alookup s.page_table pid = some fid → (pageAt s fid).pin_count ≤ 0 →
        UnpinPgImp pid d s = (false, s)) ∧
      (∀ fid, alookup s.page_table pid = some fid → 0 < (pageAt s fid).pin_count →
        (UnpinPgImp pid d s).1 = true ∧
        (pageAt (UnpinPgImp pid d s).2 fid).pin_count = (pageAt s fid).pin_count - 1 ∧
        (pageAt (UnpinPgImp pid d s).2 fid).is_dirty = ((pageAt s fid).is_dirty || d) ∧
        ((pageAt s fid).pin_count - 1 = 0 →
          (UnpinPgImp pid d s).2.replacer = s.replacer.SetEvictable fid true ∧
          alookup (UnpinPgImp pid d s).2.replacer.frame_table fid =
            some ⟨((alookup s.replacer.frame_table fid).getD defaultFrameInfo).timestamp,
                  true⟩) ∧
        ((pageAt s fid).pin_count - 1 ≠ 0 →
          (UnpinPgImp pid d s).2.replacer = s.replacer) ∧
        (UnpinPgImp pid d s).2.page_table = s.page_table ∧
        (UnpinPgImp pid d s).2.free_list = s.free_list) := by
  refine ⟨?_, ?_, ?_⟩
  · intro h
    simp [UnpinPgImp, h]
  · intro fid h hpin
    simp [UnpinPgImp, h, hpin]
  · intro fid h hpin
    have hlt : ¬ (pageAt s fid).pin_count ≤ 0 := not_le.mpr hpin
    have hrange : fid.toNat < s.pages.length := by
      by_contra hge
      have hpg := pageGet_of_le s.pages fid.toNat (Nat.le_of_not_lt hge)
      rw [pageAt, hpg] at hpin
      exact absurd hpin (by norm_num [defaultPage])
    have hlt' : ¬ (pageGet s.pages fid.toNat).pin_count ≤ 0 := hlt
    by_cases hz : (pageAt s fid).pin_count - 1 = 0
    · have hz' : (pageGet s.pages fid.toNat).pin_count - 1 = 0 := hz
      refine ⟨by simp [UnpinPgImp, h, hlt, hz], ?_, ?_, ?_,
        fun hnz => absurd hz hnz,
        by simp [UnpinPgImp, h, hlt, hz], by simp [UnpinPgImp, h, hlt, hz]⟩
      · simp [UnpinPgImp, h, hlt, hlt', hz, hz', pageAt, pageGet_pageSet_self, hrange]
      · simp [UnpinPgImp, h, hlt, hlt', hz, hz', pageAt, pageGet_pageSet_self, hrange]
      · intro _
        refine ⟨by simp [UnpinPgImp, h, hlt, hz], ?_⟩
        simp [UnpinPgImp, h, hlt, hz, alookup_SetEvictable_self]
    · have hz' : ¬ (pageGet s.pages fid.toNat).pin_count - 1 = 0 := hz
      refine ⟨by simp [UnpinPgImp, h, hlt, hz], ?_, ?_,
        fun hzz => absurd hzz hz, fun _ => by simp [UnpinPgImp, h, hlt, hz],
        by simp [UnpinPgImp, h, hlt, hz], by simp [UnpinPgImp, h, hlt, hz]⟩
      · simp [UnpinPgImp, h, hlt, hlt', hz, hz', pageAt, pageGet_pageSet_self, hrange]
      · simp [UnpinPgImp, h, hlt, hlt', hz, hz', pageAt, pageGet_pageSet_self, hrange]

/-- A one-frame pool holding a clean page with pin count 1, for the C5
witness. -/
def unpinExState : BPMState :=
  { pool_size := 1, pages := [⟨0, 1, false, 0⟩], page_table := [(0, 0)], free_list := [],
    replacer := ⟨[(0, ⟨[0], false⟩)], 1, 2, 1, 0⟩, next_page_id := 1, disk := ⟨[], [], []⟩ }

/-- Witness for C5: unpinning a page that is not resident fails with no
state change; unpinning resident page 0 with `is_dirty = true` succeeds,
drops the pin count to zero, latches dirty, and marks frame 0 evictable. -/
theorem UnpinPgImp_spec_witness :
    UnpinPgImp 7 true unpinExState = (false, unpinExState) ∧
      (UnpinPgImp 0 true unpinExState).1 = true ∧
      (pageAt (UnpinPgImp 0 true unpinExState).2 0).pin_count =
        (pageAt unpinExState 0).pin_count - 1 ∧
      (pageAt (UnpinPgImp 0 true unpinExState).2 0).is_dirty =
        ((pageAt unpinExState 0).is_dirty || true) ∧
      ((pageAt unpinExState 0).pin_count - 1 = 0 →
        (UnpinPgImp 0 true unpinExState).2.replacer =
          unpinExState.replacer.SetEvictable 0 true ∧
        alookup (UnpinPgImp 0 true unpinExState).2.replacer.frame_table 0 =
          some ⟨((alookup unpinExState.replacer.frame_table 0).getD
            defaultFrameInfo).timestamp, true⟩) ∧
      ((pageAt unpinExState 0).pin_count - 1 ≠ 0 →
        (UnpinPgImp 0 true unpinExState).2.replacer = unpinExState.replacer) ∧
      (UnpinPgImp 0 true unpinExState).2.page_table = unpinExState.page_table ∧
      (UnpinPgImp 0 true unpinExState).2.free_list = unpinExState.free_list :=
  ⟨(UnpinPgImp_spec 7 true unpinExState).1 (by decide),
   (UnpinPgImp_spec 0 true unpinExState).2.2 0 (by decide) (by decide)⟩

/-- Claim C6: `DeletePage` returns true untouched on a non-resident page;
returns false untouched on a pinned resident page; otherwise appends the
frame to the free list, erases the page-table entry, removes the frame from
the replacer, zeroes the frame's data, clears its dirty flag, sets its page
id to the sentinel, notifies the disk collaborator to deallocate the page
id, and returns true.  (The keys of both tables are distinct and the frame
is in range and untracked-or-evictable in every reachable state.) -/
theorem DeletePgImp_spec (pid : Int) (s : BPMState) :
    (alookup s.page_table pid = none → DeletePgImp pid s = some (true, s)) ∧
      (∀ fid, alookup s.page_table pid = some fid → 0 < (pageAt s fid).pin_count →
        DeletePgImp pid s = some (false, s)) ∧
      (∀ fid, alookup s.page_table pid = some fid → (pageAt s fid).pin_count ≤ 0 →
        fid < (s.replacer.replacer_size : Int) →
        (alookup s.replacer.frame_table fid = none ∨
          ∃ i, alookup s.replacer.frame_table fid = some i ∧ i.evictable = true) →
        (s.replacer.frame_table.map Prod.fst).Nodup →
        (s.page_table.map Prod.fst).Nodup →
        ∃ s1, DeletePgImp pid s = some (true, s1) ∧
          s1.free_list = s.free_list ++ [fid] ∧
          alookup s1.page_table pid = none ∧
          (∀ q, q ≠ pid → alookup s1.page_table q = alookup s.page_table q) ∧
          alookup s1.replacer.frame_table fid = none ∧
          pageAt s1 fid =
            { pageAt s fid with data := 0, is_dirty := false, page_id := INVALID_PAGE_ID } ∧
          s1.disk.deallocated = pid :: s.disk.deallocated) := by
  refine ⟨?_, ?_, ?_⟩
  · intro h
    simp [DeletePgImp, h]
  · intro fid h hpin
    simp [DeletePgImp, h, hpin]
  · intro fid h hpin hlt htrk hnd hndp
    have hnl : ¬ 0 < (pageAt s fid).pin_count := not_lt.mpr hpin
    have hnl' : ¬ 0 < (pageGet s.pages fid.toNat).pin_count := hnl
    have hns : ¬ (s.replacer.replacer_size : Int) ≤ fid := not_le.mpr hlt
    have hpg : pageGet (pageSet s.pages fid.toNat
        { pageAt s fid with data := 0, is_dirty := false, page_id := INVALID_PAGE_ID })
        fid.toNat =
        { pageAt s fid with data := 0, is_dirty := false, page_id := INVALID_PAGE_ID } := by
      by_cases hrange : fid.toNat < s.pages.length
      · exact pageGet_pageSet_self _ _ _ hrange
      · have hle := Nat.le_of_not_lt hrange
        simp only [pageAt]
        rw [pageSet_of_le _ _ _ hle, pageGet_of_le _ _ hle]
        rfl
    rcases htrk with hnone | ⟨i, hsome, hev⟩
    · have hrem : s.replacer.Remove fid = some s.replacer := by
        simp [LRUKReplacer.Remove, hns, hnone]
      refine ⟨{ s with free_list := s.free_list ++ [fid],
                       page_table := aerase s.page_table pid,
                       replacer := s.replacer,
                       pages := pageSet s.pages fid.toNat { pageAt s fid with data := 0, is_dirty := false, page_id := INVALID_PAGE_ID },
                       disk := { s.disk with deallocated := pid :: s.disk.deallocated } },
        ?_, rfl, alookup_aerase_self hndp,
        fun q hq => alookup_aerase_ne _ _ _ hq, hnone, hpg, rfl⟩
      simp [DeletePgImp, h, hnl', hrem, pageAt]
    · have hrem : s.replacer.Remove fid =
          some { s.replacer with curr_size := s.replacer.curr_size - 1, frame_table := aerase s.replacer.frame_table fid } := by
        simp [LRUKReplacer.Remove, hns, hsome, hev]
      refine ⟨{ s with free_list := s.free_list ++ [fid],
                       page_table := aerase s.page_table pid,
                       replacer := { s.replacer with curr_size := s.replacer.curr_size - 1, frame_table := aerase s.replacer.frame_table fid },
                       pages := pageSet s.pages fid.toNat { pageAt s fid with data := 0, is_dirty := false, page_id := INVALID_PAGE_ID },
                       disk := { s.disk with deallocated := pid :: s.disk.deallocated } },
        ?_, rfl, alookup_aerase_self hndp,
        fun q hq => alookup_aerase_ne _ _ _ hq, alookup_aerase_self hnd, hpg, rfl⟩
      simp [DeletePgImp, h, hnl', hrem, pageAt]

/-- A one-frame pool whose resident page 0 is unpinned, dirty and tracked
evictable, for the C6 witness. -/
def delExState : BPMState :=
  { pool_size := 1, pages := [⟨0, 0, true, 5⟩], page_table := [(0, 0)], free_list := [],
    replacer := ⟨[(0, ⟨[0], true⟩)], 1, 2, 1, 1⟩, next_page_id := 1, disk := ⟨[], [], []⟩ }

/-- A one-frame pool whose resident page 0 is pinned, for the C6 witness. -/
def delExStateP : BPMState :=
  { pool_size := 1, pages := [⟨0, 1, false, 0⟩], page_table := [(0, 0)], free_list := [],
    replacer := ⟨[(0, ⟨[0], false⟩)], 1, 2, 1, 0⟩, next_page_id := 1, disk := ⟨[], [], []⟩ }

/-- Witness for C6: deleting an unknown page succeeds untouched; deleting a
pinned page fails untouched; deleting the unpinned resident page 0 frees
the frame, erases both table entries, resets the frame and notifies the
deallocation. -/
theorem DeletePgImp_spec_witness :
    DeletePgImp 9 delExState = some (true, delExState) ∧
      DeletePgImp 0 delExStateP = some (false, delExStateP) ∧
      (∃ s1, DeletePgImp 0 delExState = some (true, s1) ∧
        s1.free_list = delExState.free_list ++ [0] ∧
        alookup s1.page_table 0 = none ∧
        (∀ q, q ≠ 0 → alookup s1.page_table q = alookup delExState.page_table q) ∧
        alookup s1.replacer.frame_table 0 = none ∧
        pageAt s1 0 =
          { pageAt delExState 0 with data := 0, is_dirty := false, page_id := INVALID_PAGE_ID } ∧
        s1.disk.deallocated = 0 :: delExState.disk.deallocated) :=
  ⟨(DeletePgImp_spec 9 delExState).1 (by decide),
   (DeletePgImp_spec 0 delExStateP).2.1 0 (by decide) (by decide),
   (DeletePgImp_spec 0 delExState).2.2 0 (by decide) (by decide) (by decide)
     (Or.inr ⟨⟨[0], true⟩, by decide, rfl⟩) (by decide) (by decide)⟩

/-! ## Claims on the frame-acquisition paths (`NewPage`, `FetchPage`) -/

/-- Claim C3: when `NewPage` (or `FetchPage` on a miss) obtains its frame by
eviction — the free list being empty — and the victim frame is dirty, the
disk collaborator observes a `WritePage` of the victim's old page id and
current contents before the frame is rebound. -/
theorem dirty_victim_written_back (s : BPMState) (hfree : s.free_list = [])
    (fid : Int) (r1 : LRUKReplacer) (hev : s.replacer.Evict = some (fid, r1))
    (hdirty : (pageAt s fid).is_dirty = true) :
    (NewPgImp s).2.disk.writes =
      ((pageAt s fid).page_id, (pageAt s fid).data) :: s.disk.writes ∧
      (∀ pid, alookup s.page_table pid = none →
        (FetchPgImp pid s).2.disk.writes =
          ((pageAt s fid).page_id, (pageAt s fid).data) :: s.disk.writes) := by
  have hob : obtainFrame s = some (fid,
      { s with replacer := r1,
               disk := s.disk.writePage (pageAt s fid).page_id (pageAt s fid).data,
               page_table := aerase s.page_table (pageAt s fid).page_id }) := by
    simp [obtainFrame, hfree, hev, hdirty]
  constructor
  · simp [NewPgImp, hob, AllocatePage, Disk.writePage]
  · intro pid h
    simp [FetchPgImp, h, hob, Disk.writePage]

/-- A one-frame pool with an empty free list and a dirty unpinned resident
page, for the C3 witness. -/
def evictExState : BPMState :=
  { pool_size := 1, pages := [⟨3, 0, true, 42⟩], page_table := [(3, 0)], free_list := [],
    replacer := ⟨[(0, ⟨[0], true⟩)], 1, 2, 1, 1⟩, next_page_id := 4, disk := ⟨[], [], []⟩ }

/-- Witness for C3: both `NewPage` and a missing `FetchPage` on the full
pool write back the dirty victim (page 3, contents 42) first. -/
theorem dirty_victim_written_back_witness :
    (NewPgImp evictExState).2.disk.writes =
      ((pageAt evictExState 0).page_id, (pageAt evictExState 0).data) ::
        evictExState.disk.writes ∧
      (FetchPgImp 7 evictExState).2.disk.writes =
        ((pageAt evictExState 0).page_id, (pageAt evictExState 0).data) ::
          evictExState.disk.writes :=
  ⟨(dirty_victim_written_back evictExState rfl 0 ⟨[], 1, 2, 1, 0⟩
      (by decide) (by decide)).1,
   (dirty_victim_written_back evictExState rfl 0 ⟨[], 1, 2, 1, 0⟩
      (by decide) (by decide)).2 7 (by decide)⟩

/-- Frame acquisition fails exactly when the free list is empty and no
tracked frame is evictable (for a well-formed replacer). -/
theorem obtainFrame_none_iff (s : BPMState) (hwf : ReplacerWF s.replacer) :
    obtainFrame s = none ↔
      s.free_list = [] ∧ ∀ e ∈ s.replacer.frame_table, e.2.evictable = false := by
  constructor
  · intro h
    cases hfl : s.free_list with
    | cons f rest =>
      rw [obtainFrame, hfl] at h
      simp at h
    | nil =>
      refine ⟨rfl, ?_⟩
      by_contra hex
      push_neg at hex
      obtain ⟨e0, he0, hne⟩ := hex
      have hev0 : e0.2.evictable = true := by
        cases hb : e0.2.evictable
        · exact absurd hb hne
        · rfl
      obtain ⟨w, _, _, hEv, _⟩ := evict_wf_spec s.replacer hwf e0 he0 hev0
      rw [obtainFrame, hfl, hEv] at h
      simp at h
  · rintro ⟨hfl, hnoev⟩
    simp [obtainFrame, hfl, evict_none_of_no_evictable _ hnoev]

theorem NewPgImp_fst_none_iff (s : BPMState) :
    (NewPgImp s).1 = none ↔ obtainFrame s = none := by
  cases hob : obtainFrame s with
  | none => simp [NewPgImp, hob]
  | some x => simp [NewPgImp, hob]

theorem FetchPgImp_fst_none_iff (s : BPMState) (pid : Int)
    (h : alookup s.page_table pid = none) :
    (FetchPgImp pid s).1 = none ↔ obtainFrame s = none := by
  cases hob : obtainFrame s with
  | none => simp [FetchPgImp, h, hob]
  | some x => simp [FetchPgImp, h, hob]

/-- Claim C4: `NewPage` (and `FetchPage` on a miss) returns null exactly
when the free list is empty and the replacer has no evictable frame; in
particular, on a pool of size 1, a second `NewPage` without an intervening
unpin returns null. -/
theorem NewPage_null_iff_exhausted (s : BPMState) (hwf : ReplacerWF s.replacer) :
    ((NewPgImp s).1 = none ↔
      s.free_list = [] ∧ ∀ e ∈ s.replacer.frame_table, e.2.evictable = false) ∧
      (∀ pid, alookup s.page_table pid = none →
        ((FetchPgImp pid s).1 = none ↔
          s.free_list = [] ∧ ∀ e ∈ s.replacer.frame_table, e.2.evictable = false)) ∧
      (NewPgImp (NewPgImp (mkBufferPool 1 2)).2).1 = none := by
  refine ⟨?_, ?_, by decide⟩
  · rw [NewPgImp_fst_none_iff]
    exact obtainFrame_none_iff s hwf
  · intro pid h
    rw [FetchPgImp_fst_none_iff s pid h]
    exact obtainFrame_none_iff s hwf

/-- Witness for C4: the exhausted one-frame pool after one `NewPage`. -/
theorem NewPage_null_iff_exhausted_witness :
    ((NewPgImp (NewPgImp (mkBufferPool 1 2)).2).1 = none ↔
      (NewPgImp (mkBufferPool 1 2)).2.free_list = [] ∧
        ∀ e ∈ (NewPgImp (mkBufferPool 1 2)).2.replacer.frame_table,
          e.2.evictable = false) ∧
      ((FetchPgImp 5 (NewPgImp (mkBufferPool 1 2)).2).1 = none ↔
        (NewPgImp (mkBufferPool 1 2)).2.free_list = [] ∧
          ∀ e ∈ (NewPgImp (mkBufferPool 1 2)).2.replacer.frame_table,
            e.2.evictable = false) :=
  ⟨(NewPage_null_iff_exhausted (NewPgImp (mkBufferPool 1 2)).2 (by decide)).1,
   (NewPage_null_iff_exhausted (NewPgImp (mkBufferPool 1 2)).2 (by decide)).2.1 5 (by decide)⟩

/-! ## Claim C2: pinned frames are never evictable (reachability invariant) -/

theorem int_toNat_inj {a b : Int} (ha : 0 ≤ a) (hb : 0 ≤ b) (h : a.toNat = b.toNat) :
    a = b := by
  rw [← Int.toNat_of_nonneg ha, ← Int.toNat_of_nonneg hb, h]

/-- Writing a slot with a page of unchanged pin count preserves every
slot's pin count. -/
theorem pageGet_set_preserve (l : List Page) (n m : Nat) (p : Page)
    (hpin : p.pin_count = (pageGet l n).pin_count) :
    (pageGet (pageSet l n p) m).pin_count = (pageGet l m).pin_count := by
  by_cases hnm : n = m
  · subst hnm
    by_cases hlt : n < l.length
    · rw [pageGet_pageSet_self _ _ _ hlt, hpin]
    · rw [pageSet_of_le _ _ _ (Nat.le_of_not_lt hlt)]
  · rw [pageGet_pageSet_ne _ _ _ _ hnm]

/-- Both branches of `SetEvictable` write the table through `operator[]`. -/
theorem SetEvictable_table_eq (r : LRUKReplacer) (fid : Int) (b : Bool) :
    ∃ v, (r.SetEvictable fid b).frame_table = aupsert r.frame_table fid v := by
  simp only [LRUKReplacer.SetEvictable]
  by_cases h : ((alookup r.frame_table fid).getD defaultFrameInfo).evictable ≠ b
  · exact ⟨_, by rw [if_pos h]⟩
  · exact ⟨_, by rw [if_neg h]⟩

/-- Entry decomposition after `SetEvictable` under distinct keys: the
frame's entry carries the requested flag; all other entries are old. -/
theorem mem_SetEvictable {r : LRUKReplacer} {fid : Int} {b : Bool}
    (hnd : (r.frame_table.map Prod.fst).Nodup) {e : Int × FrameInfo}
    (he : e ∈ (r.SetEvictable fid b).frame_table) :
    (e.1 = fid ∧ e.2.evictable = b) ∨ (e ∈ r.frame_table ∧ e.1 ≠ fid) := by
  simp only [LRUKReplacer.SetEvictable] at he
  by_cases h : ((alookup r.frame_table fid).getD defaultFrameInfo).evictable ≠ b
  · rw [if_pos h] at he
    rcases mem_aupsert_nodup hnd he with h1 | ⟨h1, hne⟩
    · exact Or.inl ⟨by rw [h1], by rw [h1]⟩
    · exact Or.inr ⟨h1, hne⟩
  · rw [if_neg h] at he
    rcases mem_aupsert_nodup hnd he with h1 | ⟨h1, hne⟩
    · refine Or.inl ⟨by rw [h1], ?_⟩
      rw [h1]
      exact not_ne_iff.mp h
    · exact Or.inr ⟨h1, hne⟩

/-- Entry decomposition after `RecordAccess` followed by `SetEvictable` on
the same frame (the pin path of the manager's operations). -/
theorem mem_record_set {r : LRUKReplacer} {fid : Int} {b : Bool}
    (hnd : (r.frame_table.map Prod.fst).Nodup) {e : Int × FrameInfo}
    (he : e ∈ ((r.RecordAccess fid).SetEvictable fid b).frame_table) :
    (e.1 = fid ∧ e.2.evictable = b) ∨ (e ∈ r.frame_table ∧ e.1 ≠ fid) := by
  have hnd1 : ((r.RecordAccess fid).frame_table.map Prod.fst).Nodup :=
    keys_nodup_aupsert _ _ hnd
  rcases mem_SetEvictable hnd1 he with h1 | ⟨h1, hne⟩
  · exact Or.inl h1
  · rcases mem_aupsert_nodup hnd h1 with h2 | ⟨h2, _⟩
    · exact absurd (by rw [h2]) hne
    · exact Or.inr ⟨h2, hne⟩

theorem nodup_record_set (r : LRUKReplacer) (fid : Int) (b : Bool)
    (hnd : (r.frame_table.map Prod.fst).Nodup) :
    (((r.RecordAccess fid).SetEvictable fid b).frame_table.map Prod.fst).Nodup := by
  obtain ⟨v, hv⟩ := SetEvictable_table_eq (r.RecordAccess fid) fid b
  rw [hv]
  exact keys_nodup_aupsert _ _ (keys_nodup_aupsert _ _ hnd)

/-- The inductive invariant behind C2: all tracked frame ids, free-list
entries and page-table frame values are nonnegative, the replacer's keys
are distinct, and every evictable tracked frame has pin count zero (the
pin counts never go negative, so `≤ 0` is the contrapositive form). -/
def InvC2 (s : BPMState) : Prop :=
  (∀ e ∈ s.replacer.frame_table, 0 ≤ e.1) ∧
  (∀ f ∈ s.free_list, 0 ≤ f) ∧
  (∀ e ∈ s.page_table, 0 ≤ e.2) ∧
  (s.replacer.frame_table.map Prod.fst).Nodup ∧
  (∀ e ∈ s.replacer.frame_table, e.2.evictable = true → (pageAt s e.1).pin_count ≤ 0)

theorem invc2_init (n k : Nat) : InvC2 (mkBufferPool n k) := by
  refine ⟨by simp [mkBufferPool, mkLRUKReplacer], ?_,
    by simp [mkBufferPool], by simp [mkBufferPool, mkLRUKReplacer],
    by simp [mkBufferPool, mkLRUKReplacer]⟩
  intro f hf
  simp only [mkBufferPool, List.mem_map] at hf
  obtain ⟨m, _, rfl⟩ := hf
  exact Int.ofNat_nonneg m

/-- Frame acquisition preserves the invariant and yields a nonnegative
frame id, leaving the frame array untouched. -/
theorem invc2_obtainFrame {s : BPMState} {fid : Int} {s1 : BPMState}
    (h : InvC2 s) (hob : obtainFrame s = some (fid, s1)) :
    InvC2 s1 ∧ 0 ≤ fid ∧ s1.pages = s.pages := by
  obtain ⟨hr, hf, hp, hnd, hpin⟩ := h
  cases hfl : s.free_list with
  | cons f rest =>
    rw [obtainFrame, hfl] at hob
    simp only [Option.some.injEq, Prod.mk.injEq] at hob
    obtain ⟨hv, hs⟩ := hob
    rw [← hs, ← hv]
    refine ⟨⟨hr, ?_, hp, hnd, hpin⟩, hf f (by rw [hfl]; exact List.mem_cons_self f rest),
      rfl⟩
    intro g hg
    exact hf g (by rw [hfl]; exact List.mem_cons_of_mem f hg)
  | nil =>
    rw [obtainFrame, hfl] at hob
    cases hev : s.replacer.Evict with
    | none =>
      rw [hev] at hob
      simp at hob
    | some x =>
      obtain ⟨v, r1⟩ := x
      rw [hev] at hob
      simp only [Option.some.injEq, Prod.mk.injEq] at hob
      obtain ⟨hv, hs⟩ := hob
      obtain ⟨⟨i, hvi, _⟩, hr1⟩ := evict_some_cases hev
      subst hr1
      rw [← hs, ← hv]
      refine ⟨⟨?_, ?_, ?_, ?_, ?_⟩, hr (v, i) hvi, rfl⟩
      · intro e he
        exact hr e (mem_aerase he)
      · intro g hg
        exact absurd hg (List.not_mem_nil g)
      · intro e he
        exact hp e (mem_aerase he)
      · exact keys_nodup_aerase _ hnd
      · intro e he hev2
        exact hpin e (mem_aerase he) hev2

/-- Installing a freshly obtained frame (rebinding the slot, inserting the
page-table entry, recording the access and pinning) preserves the
invariant, whatever page value and page id are installed. -/
theorem invc2_install (s1 : BPMState) (fid pid2 nid : Int) (p : Page)
    (h1 : InvC2 s1) (hfid : 0 ≤ fid) :
    InvC2 { s1 with pages := pageSet s1.pages fid.toNat p,
                    page_table := aemplace s1.page_table pid2 fid,
                    replacer := (s1.replacer.RecordAccess fid).SetEvictable fid false,
                    next_page_id := nid } := by
  obtain ⟨hr1, hf1, hp1, hnd1, hpin1⟩ := h1
  refine ⟨?_, hf1, ?_, nodup_record_set _ _ _ hnd1, ?_⟩
  · intro e he
    rcases mem_record_set hnd1 he with ⟨he1, _⟩ | ⟨he1, _⟩
    · exact he1 ▸ hfid
    · exact hr1 e he1
  · intro e he
    unfold aemplace at he
    by_cases hl2 : (alookup s1.page_table pid2).isSome
    · rw [if_pos hl2] at he
      exact hp1 e he
    · rw [if_neg hl2] at he
      rcases List.mem_append.mp he with he1 | he1
      · exact hp1 e he1
      · have he2 : e = (pid2, fid) := by simpa using he1
        rw [he2]
        exact hfid
  · intro e he hev
    rcases mem_record_set hnd1 he with ⟨_, hflag⟩ | ⟨he1, hne⟩
    · rw [hflag] at hev
      cases hev
    · have hold := hpin1 e he1 hev
      have hq : pageGet (pageSet s1.pages fid.toNat p) e.1.toNat =
          pageGet s1.pages e.1.toNat :=
        pageGet_pageSet_ne _ _ _ _
          (fun hh => hne (int_toNat_inj hfid (hr1 e he1) hh).symm)
      show (pageGet (pageSet s1.pages fid.toNat p) e.1.toNat).pin_count ≤ 0
      rw [hq]
      exact hold

theorem invc2_newpg (s : BPMState) (h : InvC2 s) : InvC2 (NewPgImp s).2 := by
  cases hob : obtainFrame s with
  | none =>
    have hU : (NewPgImp s).2 = s := by simp [NewPgImp, hob]
    rw [hU]
    exact h
  | some x =>
    obtain ⟨fid, s1⟩ := x
    obtain ⟨h1, hfid, _⟩ := invc2_obtainFrame h hob
    have hU : (NewPgImp s).2 =
        { s1 with pages := pageSet s1.pages fid.toNat ⟨s1.next_page_id, 1, false, 0⟩,
                  page_table := aemplace s1.page_table s1.next_page_id fid,
                  replacer := (s1.replacer.RecordAccess fid).SetEvictable fid false,
                  next_page_id := s1.next_page_id + 1 } := by
      simp [NewPgImp, hob, AllocatePage]
    rw [hU]
    exact invc2_install s1 fid s1.next_page_id (s1.next_page_id + 1) _ h1 hfid

theorem invc2_fetch (pid : Int) (s : BPMState) (h : InvC2 s) :
    InvC2 (FetchPgImp pid s).2 := by
  cases hl : alookup s.page_table pid with
  | some fid =>
    obtain ⟨hr, hf, hp, hnd, hpin⟩ := h
    have hfid : 0 ≤ fid := hp _ (alookup_mem hl)
    have hU : (FetchPgImp pid s).2 =
        { s with pages := pageSet s.pages fid.toNat
                   { pageAt s fid with pin_count := (pageAt s fid).pin_count + 1 },
                 replacer := (s.replacer.RecordAccess fid).SetEvictable fid false } := by
      simp [FetchPgImp, hl]
    rw [hU]
    refine ⟨?_, hf, hp, nodup_record_set _ _ _ hnd, ?_⟩
    · intro e he
      rcases mem_record_set hnd he with ⟨he1, _⟩ | ⟨he1, _⟩
      · exact he1 ▸ hfid
      · exact hr e he1
    · intro e he hev
      rcases mem_record_set hnd he with ⟨_, hflag⟩ | ⟨he1, hne⟩
      · rw [hflag] at hev
        cases hev
      · have hold := hpin e he1 hev
        have hq : pageGet (pageSet s.pages fid.toNat
              { pageAt s fid with pin_count := (pageAt s fid).pin_count + 1 }) e.1.toNat =
            pageGet s.pages e.1.toNat :=
          pageGet_pageSet_ne _ _ _ _
            (fun hh => hne (int_toNat_inj hfid (hr e he1) hh).symm)
        show (pageGet (pageSet s.pages fid.toNat
            { pageAt s fid with pin_count := (pageAt s fid).pin_count + 1 }) e.1.toNat).pin_count ≤ 0
        rw [hq]
        exact hold
  | none =>
    cases hob : obtainFrame s with
    | none =>
      have hU : (FetchPgImp pid s).2 = s := by simp [FetchPgImp, hl, hob]
      rw [hU]
      exact h
    | some x =>
      obtain ⟨fid, s1⟩ := x
      obtain ⟨h1, hfid, _⟩ := invc2_obtainFrame h hob
      have hU : (FetchPgImp pid s).2 =
          { s1 with pages := pageSet s1.pages fid.toNat ⟨pid, 1, false, s1.disk.readPage pid⟩,
                    page_table := aemplace s1.page_table pid fid,
                    replacer := (s1.replacer.RecordAccess fid).SetEvictable fid false,
                    next_page_id := s1.next_page_id } := by
        simp [FetchPgImp, hl, hob]
      rw [hU]
      exact invc2_install s1 fid pid s1.next_page_id _ h1 hfid

theorem invc2_unpin (pid : Int) (d : Bool) (s : BPMState) (h : InvC2 s) :
    InvC2 (UnpinPgImp pid d s).2 := by
  obtain ⟨hr, hf, hp, hnd, hpin⟩ := h
  cases hl : alookup s.page_table pid with
  | none =>
    have hU : (UnpinPgImp pid d s).2 = s := by simp [UnpinPgImp, hl]
    rw [hU]
    exact ⟨hr, hf, hp, hnd, hpin⟩
  | some fid =>
    have hfid : 0 ≤ fid := hp _ (alookup_mem hl)
    by_cases hle : (pageAt s fid).pin_count ≤ 0
    · have hU : (UnpinPgImp pid d s).2 = s := by simp [UnpinPgImp, hl, hle]
      rw [hU]
      exact ⟨hr, hf, hp, hnd, hpin⟩
    · have hpos : 0 < (pageAt s fid).pin_count := not_le.mp hle
      have hrange : fid.toNat < s.pages.length := by
        by_contra hge
        have hpg := pageGet_of_le s.pages fid.toNat (Nat.le_of_not_lt hge)
        rw [pageAt, hpg] at hpos
        exact absurd hpos (by norm_num [defaultPage])
      by_cases hz : (pageAt s fid).pin_count - 1 = 0
      · have hU : (UnpinPgImp pid d s).2 =
            { s with pages := pageSet s.pages fid.toNat
                       { pageAt s fid with pin_count := (pageAt s fid).pin_count - 1, is_dirty := (pageAt s fid).is_dirty || d },
                     replacer := s.replacer.SetEvictable fid true } := by
          simp [UnpinPgImp, hl, hle, hz]
        rw [hU]
        refine ⟨?_, hf, hp, ?_, ?_⟩
        · intro e he
          rcases mem_SetEvictable hnd he with ⟨he1, _⟩ | ⟨he1, _⟩
          · exact he1 ▸ hfid
          · exact hr e he1
        · obtain ⟨v, hv⟩ := SetEvictable_table_eq s.replacer fid true
          show (((s.replacer.SetEvictable fid true).frame_table).map Prod.fst).Nodup
          rw [hv]
          exact keys_nodup_aupsert _ _ hnd
        · intro e he hev
          rcases mem_SetEvictable hnd he with ⟨he1, _⟩ | ⟨he1, hne⟩
          · show (pageGet (pageSet s.pages fid.toNat
                { pageAt s fid with pin_count := (pageAt s fid).pin_count - 1, is_dirty := (pageAt s fid).is_dirty || d }) e.1.toNat).pin_count ≤ 0
            rw [he1, pageGet_pageSet_self _ _ _ hrange]
            exact le_of_eq hz
          · have hold := hpin e he1 hev
            have hq := pageGet_pageSet_ne s.pages fid.toNat e.1.toNat
              { pageAt s fid with pin_count := (pageAt s fid).pin_count - 1, is_dirty := (pageAt s fid).is_dirty || d }
              (fun hh => hne (int_toNat_inj hfid (hr e he1) hh).symm)
            show (pageGet (pageSet s.pages fid.toNat
                { pageAt s fid with pin_count := (pageAt s fid).pin_count - 1, is_dirty := (pageAt s fid).is_dirty || d }) e.1.toNat).pin_count ≤ 0
            rw [hq]
            exact hold
      · have hU : (UnpinPgImp pid d s).2 =
            { s with pages := pageSet s.pages fid.toNat
                       { pageAt s fid with pin_count := (pageAt s fid).pin_count - 1, is_dirty := (pageAt s fid).is_dirty || d } } := by
          simp [UnpinPgImp, hl, hle, hz]
        rw [hU]
        refine ⟨hr, hf, hp, hnd, ?_⟩
        intro e he hev
        have hold := hpin e he hev
        by_cases hef : e.1 = fid
        · rw [hef] at hold
          exact absurd hpos (not_lt.mpr hold)
        · have hq := pageGet_pageSet_ne s.pages fid.toNat e.1.toNat
            { pageAt s fid with pin_count := (pageAt s fid).pin_count - 1, is_dirty := (pageAt s fid).is_dirty || d }
            (fun hh => hef (int_toNat_inj hfid (hr e he) hh).symm)
          show (pageGet (pageSet s.pages fid.toNat
              { pageAt s fid with pin_count := (pageAt s fid).pin_count - 1, is_dirty := (pageAt s fid).is_dirty || d }) e.1.toNat).pin_count ≤ 0
          rw [hq]
          exact hold

theorem invc2_flush (pid : Int) (s : BPMState) (h : InvC2 s) :
    InvC2 (FlushPgImp pid s).2 := by
  obtain ⟨hr, hf, hp, hnd, hpin⟩ := h
  by_cases h0 : pid = INVALID_PAGE_ID
  · have hU : (FlushPgImp pid s).2 = s := by simp [FlushPgImp, h0]
    rw [hU]
    exact ⟨hr, hf, hp, hnd, hpin⟩
  · cases hl : alookup s.page_table pid with
    | none =>
      have hU : (FlushPgImp pid s).2 = s := by simp [FlushPgImp, h0, hl]
      rw [hU]
      exact ⟨hr, hf, hp, hnd, hpin⟩
    | some fid =>
      have hU : (FlushPgImp pid s).2 =
          { s with disk := s.disk.writePage (pageAt s fid).page_id (pageAt s fid).data,
                   pages := pageSet s.pages fid.toNat { pageAt s fid with is_dirty := false } } := by
        simp [FlushPgImp, h0, hl]
      rw [hU]
      refine ⟨hr, hf, hp, hnd, ?_⟩
      intro e he hev
      have hold := hpin e he hev
      show (pageGet (pageSet s.pages fid.toNat
          { pageAt s fid with is_dirty := false }) e.1.toNat).pin_count ≤ 0
      rw [pageGet_set_preserve s.pages fid.toNat e.1.toNat
        { pageAt s fid with is_dirty := false } rfl]
      exact hold

theorem invc2_flushEntry (s : BPMState) (e : Int × Int) (h : InvC2 s) :
    InvC2 (flushEntry s e) := by
  obtain ⟨hr, hf, hp, hnd, hpin⟩ := h
  refine ⟨hr, hf, hp, hnd, ?_⟩
  intro g hg hev
  have hold := hpin g hg hev
  show (pageGet (pageSet s.pages e.2.toNat
      { pageAt s e.2 with is_dirty := false }) g.1.toNat).pin_count ≤ 0
  rw [pageGet_set_preserve s.pages e.2.toNat g.1.toNat
    { pageAt s e.2 with is_dirty := false } rfl]
  exact hold

theorem invc2_foldl_flush (l : List (Int × Int)) (s : BPMState) (h : InvC2 s) :
    InvC2 (l.foldl flushEntry s) := by
  induction l generalizing s with
  | nil => exact h
  | cons x t ih => exact ih _ (invc2_flushEntry s x h)

theorem invc2_flushall (s : BPMState) (h : InvC2 s) : InvC2 (FlushAllPgsImp s) :=
  invc2_foldl_flush s.page_table s h

/-- A successful `Remove` either leaves the replacer unchanged or erases
the frame's record. -/
theorem Remove_some_cases {r : LRUKReplacer} {fid : Int} {r1 : LRUKReplacer}
    (h : r.Remove fid = some r1) :
    r1 = r ∨
      r1 = { r with curr_size := r.curr_size - 1,
                    frame_table := aerase r.frame_table fid } := by
  simp only [LRUKReplacer.Remove] at h
  by_cases hsz : (r.replacer_size : Int) ≤ fid
  · rw [if_pos hsz] at h
    cases h
  · rw [if_neg hsz] at h
    split at h
    · exact Or.inl (Option.some.inj h).symm
    · next i heq =>
      by_cases hev : i.evictable = true
      · rw [if_pos hev] at h
        exact Or.inr (Option.some.inj h).symm
      · rw [if_neg hev] at h
        cases h

theorem Remove_some_sub {r : LRUKReplacer} {fid : Int} {r1 : LRUKReplacer}
    (h : r.Remove fid = some r1) : ∀ e ∈ r1.frame_table, e ∈ r.frame_table := by
  rcases Remove_some_cases h with h1 | h1 <;> rw [h1]
  · exact fun e he => he
  · exact fun e he => mem_aerase he

theorem invc2_delete (pid : Int) (s : BPMState) {r : Bool × BPMState}
    (h : InvC2 s) (hD : DeletePgImp pid s = some r) : InvC2 r.2 := by
  obtain ⟨hr, hf, hp, hnd, hpin⟩ := h
  cases hl : alookup s.page_table pid with
  | none =>
    simp only [DeletePgImp, hl] at hD
    rw [← Option.some.inj hD]
    exact ⟨hr, hf, hp, hnd, hpin⟩
  | some fid =>
    have hfid : 0 ≤ fid := hp _ (alookup_mem hl)
    simp only [DeletePgImp, hl] at hD
    by_cases hpc : 0 < (pageAt s fid).pin_count
    · rw [if_pos hpc] at hD
      rw [← Option.some.inj hD]
      exact ⟨hr, hf, hp, hnd, hpin⟩
    · rw [if_neg hpc] at hD
      cases hrem : s.replacer.Remove fid with
      | none =>
        rw [hrem] at hD
        simp at hD
      | some r1 =>
        rw [hrem] at hD
        rw [← Option.some.inj hD]
        refine ⟨?_, ?_, ?_, ?_, ?_⟩
        · intro e he
          exact hr e (Remove_some_sub hrem e he)
        · intro g hg
          have hg1 : g ∈ s.free_list ++ [fid] := hg
          rcases List.mem_append.mp hg1 with h1 | h1
          · exact hf g h1
          · have hg2 : g = fid := by simpa using h1
            rw [hg2]
            exact hfid
        · intro e he
          exact hp e (mem_aerase he)
        · rcases Remove_some_cases hrem with h1 | h1
          · show ((r1.frame_table).map Prod.fst).Nodup
            rw [h1]
            exact hnd
          · show ((r1.frame_table).map Prod.fst).Nodup
            rw [h1]
            exact keys_nodup_aerase _ hnd
        · intro e he hev
          have he1 : e ∈ r1.frame_table := he
          have hold := hpin e (Remove_some_sub hrem e he1) hev
          show (pageGet (pageSet s.pages fid.toNat
              { pageAt s fid with data := 0, is_dirty := false, page_id := INVALID_PAGE_ID }) e.1.toNat).pin_count ≤ 0
          rw [pageGet_set_preserve s.pages fid.toNat e.1.toNat
            { pageAt s fid with data := 0, is_dirty := false, page_id := INVALID_PAGE_ID } rfl]
          exact hold

theorem reach_invc2 {n k : Nat} {s : BPMState} (h : Reach n k s) : InvC2 s := by
  induction h with
  | init => exact invc2_init n k
  | newpg _ ih => exact invc2_newpg _ ih
  | fetch pid _ ih => exact invc2_fetch pid _ ih
  | unpin pid d _ ih => exact invc2_unpin pid d _ ih
  | flush pid _ ih => exact invc2_flush pid _ ih
  | flushall _ ih => exact invc2_flushall _ ih
  | delete pid _ hD ih => exact invc2_delete pid _ ih hD

/-- Claim C2: in every state reachable from a fresh pool by any sequence of
`NewPage`, `FetchPage`, `UnpinPage`, `FlushPage`, `FlushAllPages` and
`DeletePage`, a frame with positive pin count is either untracked by the
replacer or marked non-evictable, so a pinned frame is never returned by
`Evict`. -/
theorem pinned_frames_never_evictable {n k : Nat} {s : BPMState} (hs : Reach n k s)
    (fid : Int) (hpin : 0 < (pageAt s fid).pin_count) :
    (∀ info, alookup s.replacer.frame_table fid = some info → info.evictable = false) ∧
      (∀ r1, s.replacer.Evict ≠ some (fid, r1)) := by
  obtain ⟨_, _, _, _, hpininv⟩ := reach_invc2 hs
  constructor
  · intro info hl
    cases hb : info.evictable
    · rfl
    · have hle := hpininv (fid, info) (alookup_mem hl) hb
      exact absurd hpin (not_lt.mpr hle)
  · intro r1 hEv
    obtain ⟨⟨i, hvi, hev⟩, _⟩ := evict_some_cases hEv
    have hle := hpininv (fid, i) hvi hev
    exact absurd hpin (not_lt.mpr hle)

/-- Witness for C2: after one `NewPage` on a fresh one-frame pool, frame 0
is pinned, tracked non-evictable, and not returned by `Evict`. -/
theorem pinned_frames_never_evictable_witness :
    0 < (pageAt (NewPgImp (mkBufferPool 1 2)).2 0).pin_count ∧
      (∀ info, alookup (NewPgImp (mkBufferPool 1 2)).2.replacer.frame_table 0 = some info →
        info.evictable = false) ∧
      (∀ r1, (NewPgImp (mkBufferPool 1 2)).2.replacer.Evict ≠ some (0, r1)) :=
  ⟨by decide, pinned_frames_never_evictable (Reach.newpg Reach.init) 0 (by decide)⟩
